import Mathlib

/-!
Shallow embedding of the wireframe DSL parser (src `parseDsl`) and proofs of
the specification claims.  The parser is a line-oriented, stack-based parser:
each physical line is trimmed, classified by hand-rolled regexes, and an
explicit context stack of open containers (a screen or a nested layout stack)
tracks the required indentation baseline.  The embedding below mirrors the
source line by line; mutation of shared container objects is replaced by
accumulating each open container's children in its stack frame and folding
the finished element into the parent frame when the context is popped.
-/

namespace Wireframe

/-! ## Data model (source interfaces) -/

inductive StackType
  | vertical_stack
  | horizontal_stack
deriving DecidableEq

/-- DslElement: BasicComponent (label | input | button | image) or Stack. -/
inductive DslElement
  | label (text : String) (lineNumber : Nat)
  | inputC (placeholder : String) (lineNumber : Nat)
  | button (text : String) (lineNumber : Nat)
  | image (src : String) (lineNumber : Nat)
  | stack (type : StackType) (components : List DslElement) (lineNumber : Nat)

structure Screen where
  name : String
  components : List DslElement
  lineNumber : Nat

inductive NavigationConfig
  | navigation_stack (root : String) (lineNumber : Nat)
  | tab_stack (tabs : List String) (lineNumber : Nat)
  | drawer_stack (root : String) (drawer : String) (lineNumber : Nat)
deriving DecidableEq

structure ScreenLink where
  sourceScreenName : String
  destinationScreenName : String
  lineNumber : Nat
deriving DecidableEq

structure ParseError where
  lineNumber : Nat
  message : String
deriving DecidableEq

structure ParseResult where
  screens : List Screen
  navigationStacks : List NavigationConfig
  links : List ScreenLink
  errors : List ParseError

/-! ## Character classes and string helpers (JS regex semantics, ASCII) -/

/-- JS `\s` (the ASCII part; inputs are ASCII DSL text). -/
def isSpaceChar (c : Char) : Bool :=
  c = ' ' || c = '\t' || c = '\r' || c = '\n' || c = '\x0b' || c = '\x0c'

/-- JS `\w` = `[A-Za-z0-9_]`. -/
def isWordChar (c : Char) : Bool :=
  c.isAlpha || c.isDigit || c = '_'

/-- The class `[\w-]`. -/
def isWordDash (c : Char) : Bool :=
  isWordChar c || c = '-'

/-- Case-insensitive character comparison (the `/i` regex flag). -/
def lowerEq (a b : Char) : Bool :=
  a.toLower = b.toLower

/-- `code.split('\n')`. -/
def splitLines : List Char → List (List Char)
  | [] => [[]]
  | c :: cs =>
    if c = '\n' then [] :: splitLines cs
    else
      match splitLines cs with
      | l :: ls => (c :: l) :: ls
      | [] => [[c]]

/-- `line.trimStart()` (leading whitespace removed). -/
def trimStart (l : List Char) : List Char :=
  l.dropWhile isSpaceChar

/-- `line.trimEnd()` (trailing whitespace removed). -/
def trimEnd (l : List Char) : List Char :=
  (l.reverse.dropWhile isSpaceChar).reverse

/-- `s.trim()`. -/
def trimBoth (l : List Char) : List Char :=
  trimStart (trimEnd l)

/-- `countIndentation`: `line.match(/^\s*/)?.[0].length || 0`. -/
def indentOf (l : List Char) : Nat :=
  (l.takeWhile isSpaceChar).length

/-- `emptyLineRegex = /^\s*$/` as a test. -/
def blankTest (l : List Char) : Bool :=
  l.all isSpaceChar

/-- `commentRegex = /^\s*(\/\/|#).*/` as a test. -/
def commentTest (l : List Char) : Bool :=
  match trimStart l with
  | '/' :: '/' :: _ => true
  | '#' :: _ => true
  | _ => false

/-! ## Regex matchers.  Each source regex is deterministic (greedy matching
with disjoint character classes), except the screen-link arrow where the
greedy `[\w-]+` capture can give back a trailing dash to the literal `->`;
that single backtracking case is handled explicitly in `linkExec`. -/

/-- Consume a literal keyword case-insensitively (`/i` flag); the pattern is
given in lowercase. -/
def dropKeyword : List Char → List Char → Option (List Char)
  | [], s => some s
  | _ :: _, [] => none
  | k :: ks, c :: cs => if lowerEq c k then dropKeyword ks cs else none

/-- `\s+` followed by the rest: at least one whitespace char, greedily. -/
def spaces1 : List Char → Option (List Char)
  | [] => none
  | c :: cs => if isSpaceChar c then some (List.dropWhile isSpaceChar cs) else none

/-- `\s*`. -/
def dropSpaces (l : List Char) : List Char :=
  l.dropWhile isSpaceChar

/-- `([\w-]+)`: greedy nonempty capture of word/dash characters. -/
def word1 (l : List Char) : Option (List Char × List Char) :=
  match l.takeWhile isWordDash with
  | [] => none
  | w => some (w, l.dropWhile isWordDash)

/-- `"([^"]*)"`: a double-quoted capture. -/
def quoted (l : List Char) : Option (List Char × List Char) :=
  match l with
  | '"' :: rest =>
    match rest.dropWhile (fun c => c ≠ '"') with
    | '"' :: r2 => some (rest.takeWhile (fun c => c ≠ '"'), r2)
    | _ => none
  | _ => none

/-- `screenRegex = /^screen\s+([\w-]+)\s*$/i`. -/
def screenExec (l : List Char) : Option String := do
  let r ← dropKeyword "screen".data l
  let r ← spaces1 r
  let (w, r) ← word1 r
  if blankTest r then some (String.mk w) else none

/-- `labelRegex = /^label\s+"([^"]*)"\s*$/i`. -/
def labelExec (l : List Char) : Option String := do
  let r ← dropKeyword "label".data l
  let r ← spaces1 r
  let (t, r) ← quoted r
  if blankTest r then some (String.mk t) else none

/-- `inputRegex = /^input(?:\s+placeholder="([^"]*)")?\s*$/i`; `none` inside
the `some` means the optional group did not participate (JS `match[1]`
undefined). -/
def inputExec (l : List Char) : Option (Option String) := do
  let r ← dropKeyword "input".data l
  if blankTest r then
    some none
  else do
    let r ← spaces1 r
    let r ← dropKeyword "placeholder=".data r
    let (t, r) ← quoted r
    if blankTest r then some (some (String.mk t)) else none

/-- `buttonRegex = /^button\s+"([^"]*)"\s*$/i`. -/
def buttonExec (l : List Char) : Option String := do
  let r ← dropKeyword "button".data l
  let r ← spaces1 r
  let (t, r) ← quoted r
  if blankTest r then some (String.mk t) else none

/-- `imageRegex = /^image\s+src="([^"]*)"\s*$/i`. -/
def imageExec (l : List Char) : Option String := do
  let r ← dropKeyword "image".data l
  let r ← spaces1 r
  let r ← dropKeyword "src=".data r
  let (t, r) ← quoted r
  if blankTest r then some (String.mk t) else none

/-- `verticalStackStartRegex = /^vertical_stack\s*{\s*$/i`. -/
def verticalStackStartTest (l : List Char) : Bool :=
  match dropKeyword "vertical_stack".data l with
  | none => false
  | some r =>
    match dropSpaces r with
    | '{' :: r2 => blankTest r2
    | _ => false

/-- `horizontalStackStartRegex = /^horizontal_stack\s*{\s*$/i`. -/
def horizontalStackStartTest (l : List Char) : Bool :=
  match dropKeyword "horizontal_stack".data l with
  | none => false
  | some r =>
    match dropSpaces r with
    | '{' :: r2 => blankTest r2
    | _ => false

/-- `stackEndRegex = /^}\s*$/i`: a closing brace alone on the line. -/
def stackEndTest (l : List Char) : Bool :=
  match l with
  | '}' :: r => blankTest r
  | _ => false

/-- `lineContent.replace(stackEndRegex, '').trim()`: the regex is anchored at
both ends, so when it matches it replaces the whole string by the empty
string; when it does not match, `replace` is the identity. -/
def stackEndReplaceTrim (l : List Char) : List Char :=
  if stackEndTest l then [] else trimBoth l

/-- `navigationStackRegex = /^navigation_stack\s+root=([\w-]+)\s*$/i`. -/
def navigationStackExec (l : List Char) : Option String := do
  let r ← dropKeyword "navigation_stack".data l
  let r ← spaces1 r
  let r ← dropKeyword "root=".data r
  let (w, r) ← word1 r
  if blankTest r then some (String.mk w) else none

/-- The class `[\w\s,-]`. -/
def isTabListChar (c : Char) : Bool :=
  isWordDash c || isSpaceChar c || c = ','

/-- `tabStackRegex = /^tab_stack\s+tabs=\[([\w\s,-]+)\]\s*$/i`, returning the
raw bracket capture. -/
def tabStackExec (l : List Char) : Option (List Char) := do
  let r ← dropKeyword "tab_stack".data l
  let r ← spaces1 r
  let r ← dropKeyword "tabs=[".data r
  match r.takeWhile isTabListChar with
  | [] => none
  | w =>
    match r.dropWhile isTabListChar with
    | ']' :: r2 => if blankTest r2 then some w else none
    | _ => none

/-- `match[1].split(',')`. -/
def splitOnComma : List Char → List (List Char)
  | [] => [[]]
  | c :: cs =>
    if c = ',' then [] :: splitOnComma cs
    else
      match splitOnComma cs with
      | l :: ls => (c :: l) :: ls
      | [] => [[c]]

/-- `split(',').map(t => t.trim()).filter(t => t.length > 0)`. -/
def tabNames (w : List Char) : List String :=
  ((splitOnComma w).map trimBoth).filterMap
    (fun t => if t.isEmpty then none else some (String.mk t))

/-- `drawerStackRegex = /^drawer_stack\s+root=([\w-]+)\s+drawer=([\w-]+)\s*$/i`. -/
def drawerStackExec (l : List Char) : Option (String × String) := do
  let r ← dropKeyword "drawer_stack".data l
  let r ← spaces1 r
  let r ← dropKeyword "root=".data r
  let (a, r) ← word1 r
  let r ← spaces1 r
  let r ← dropKeyword "drawer=".data r
  let (b, r) ← word1 r
  if blankTest r then some (String.mk a, String.mk b) else none

/-- The `\s*->` step of `screenLinkRegex` after the greedy first capture `w`:
either whitespace then a literal `->` follows, or the capture gives back its
trailing dash which pairs with an immediately following `>`. -/
def linkArrow (w : List Char) (r : List Char) : Option (List Char × List Char) :=
  match r with
  | '>' :: rest =>
    match w.reverse with
    | '-' :: (x :: xs) => some ((x :: xs).reverse, rest)
    | _ => none
  | _ =>
    match dropSpaces r with
    | '-' :: '>' :: rest => some (w, rest)
    | _ => none

/-- `screenLinkRegex = /^([\w-]+)\s*->\s*([\w-]+)\s*$/i`. -/
def screenLinkExec (l : List Char) : Option (String × String) := do
  let (w, r) ← word1 l
  let (src, r) ← linkArrow w r
  let r := dropSpaces r
  let (dst, r) ← word1 r
  if blankTest r then some (String.mk src, String.mk dst) else none

/-! ## Image `src` validation regexes (line 220 of the source). -/

def toLowerList (l : List Char) : List Char :=
  l.map Char.toLower

/-- `/^(https|http|ftp):\/\//i`. -/
def srcProtocolTest (l : List Char) : Bool :=
  let s := toLowerList l
  "https://".data.isPrefixOf s || "http://".data.isPrefixOf s ||
    "ftp://".data.isPrefixOf s

/-- `/^\/[^\/]/i`. -/
def srcAbsoluteTest (l : List Char) : Bool :=
  match l with
  | '/' :: c :: _ => c ≠ '/'
  | _ => false

/-- `/^[\w-]+\.(png|jpg|jpeg|gif|svg)$/i`. -/
def srcFileTest (l : List Char) : Bool :=
  match l.takeWhile isWordDash with
  | [] => false
  | _ =>
    match l.dropWhile isWordDash with
    | '.' :: ext =>
      let e := toLowerList ext
      e = "png".data || e = "jpg".data || e = "jpeg".data ||
        e = "gif".data || e = "svg".data
    | _ => false

/-! ## Parser state.

The source mutates shared container objects: a `Stack` is appended to its
parent's `components` when its opening line is parsed and then mutated in
place, and a `Screen` is pushed into `result.screens` when declared and then
mutated in place.  The functional embedding instead accumulates the children
of each open container in its context-stack frame and folds the finished
container into its parent (or into the result's screen list) when the frame
is popped; since children are only ever appended to the innermost open
container, both representations produce the same final trees. -/

inductive ContainerKind
  | screen (name : String)
  | stack (type : StackType)

structure Frame where
  kind : ContainerKind
  baseIndent : Nat
  lineNumber : Nat
  components : List DslElement

structure PState where
  screens : List Screen
  navigationStacks : List NavigationConfig
  links : List ScreenLink
  errors : List ParseError
  contextStack : List Frame

def isStackFrame (f : Frame) : Bool :=
  match f.kind with
  | .stack _ => true
  | .screen _ => false

def isScreenFrame (f : Frame) : Bool :=
  match f.kind with
  | .screen _ => true
  | .stack _ => false

def stackDisplay : StackType → String
  | .vertical_stack => "vertical_stack"
  | .horizontal_stack => "horizontal_stack"

/-- `type.replace('_', ' ')` as used in the unclosed-block message. -/
def stackDisplaySpaced : StackType → String
  | .vertical_stack => "vertical stack"
  | .horizontal_stack => "horizontal stack"

/-- `contextTypeDisplay`: the stack type, or the kind `screen`. -/
def contextTypeDisplay (f : Frame) : String :=
  match f.kind with
  | .stack t => stackDisplay t
  | .screen _ => "screen"

def pushErr (st : PState) (e : ParseError) : PState :=
  { st with errors := st.errors ++ [e] }

/-- Pop the innermost frame (`contextStack.pop()`), folding the finished
container into its parent frame, or into the screen list for a screen frame.
A stack frame always sits above the frame that was active when it was opened,
so the `[]` parent case is unreachable. -/
def foldTop (st : PState) : PState :=
  match st.contextStack with
  | [] => st
  | f :: rest =>
    match f.kind with
    | .screen name =>
      { st with contextStack := rest,
                screens := st.screens ++ [⟨name, f.components, f.lineNumber⟩] }
    | .stack t =>
      match rest with
      | [] => { st with contextStack := [] }
      | p :: rs =>
        { st with contextStack :=
            { p with components :=
                p.components ++ [DslElement.stack t f.components f.lineNumber] } :: rs }

/-! ## Error messages (exact strings from the source). -/

def dupScreenMsg (name : String) : String :=
  "Duplicate screen name: " ++ name

def onlyOneNavLongMsg : String :=
  "Only one global navigation construct (navigation_stack, tab_stack, or drawer_stack) is allowed."

def onlyOneNavMsg : String :=
  "Only one global navigation construct is allowed."

def tabEmptyMsg : String :=
  "tab_stack must define at least one tab screen name."

def topLevelMsg (content : List Char) : String :=
  "Unexpected content at top level: \"" ++ String.mk content ++ "\""

def misplacedBraceMsg (t : StackType) (expected found : Nat) : String :=
  "Misplaced closing brace \x27\x7d\x27 for stack \x27" ++ stackDisplay t ++
    "\x27. Expected at indent " ++ toString expected ++ ", found at " ++
    toString found ++ "."

def afterBraceMsg : String :=
  "Unexpected content after closing brace \x27\x7d\x27 on the same line."

def extraneousInScreenMsg : String :=
  "Extraneous closing brace \x27\x7d\x27 not valid within a screen context."

def extraneousMsg : String :=
  "Extraneous or misplaced closing brace \x27\x7d\x27."

def indentErrMsg (ctx : String) (expected found : Nat) : String :=
  "Incorrect indentation. Expected at least " ++ toString expected ++
    " spaces for content within \x27" ++ ctx ++ "\x27. Found " ++
    toString found ++ " spaces."

def invalidSrcMsg (src : String) : String :=
  "Invalid image src: \"" ++ src ++ "\"."

def invalidSyntaxMsg (ctx : String) (content : List Char) : String :=
  "Invalid syntax or misplaced content within \x27" ++ ctx ++ "\x27: \"" ++
    String.mk content ++ "\""

def unclosedMsg (t : StackType) : String :=
  "Unclosed " ++ stackDisplaySpaced t ++
    " block started on this line (missing \x27\x7d\x27?)."

def srcNotDefinedMsg (name : String) : String :=
  "Source screen \"" ++ name ++ "\" in link not defined."

def dstNotDefinedMsg (name : String) : String :=
  "Destination screen \"" ++ name ++ "\" in link not defined."

/-! ## The main per-line pass. -/

/-- `contextStack[contextStack.length - 1]`: dereferencing the top of the
stack.  On an empty stack the source expression yields `undefined` and any
member access on it would throw; that is the error branch. -/
def getTop (ctx : List Frame) : Except String Frame :=
  match ctx with
  | [] => Except.error "undefined dereference: contextStack[contextStack.length - 1]"
  | f :: _ => Except.ok f

/-- The context-closing `while` loop (source lines 89-104): pops stack frames
closed by a correctly indented brace line (recording that the line was
consumed) or silently closed by de-indentation.  Fueled by the stack depth;
each iteration pops one frame. -/
def popLoopAux (content : List Char) (ind : Nat) :
    Nat → PState → Bool → PState × Bool
  | 0, st, consumed => (st, consumed)
  | fuel + 1, st, consumed =>
    match st.contextStack with
    | [] => (st, consumed)
    | f :: _ =>
      if isStackFrame f && stackEndTest content && ind == f.baseIndent then
        popLoopAux content ind fuel (foldTop st)
          (consumed || (stackEndReplaceTrim content).isEmpty)
      else if isStackFrame f && ind ≤ f.baseIndent then
        popLoopAux content ind fuel (foldTop st) consumed
      else (st, consumed)

def popLoop (content : List Char) (ind : Nat) (st : PState) : PState × Bool :=
  popLoopAux content ind st.contextStack.length st false

/-- Top-level construct recognition (source lines 120-155), tried only when
there is no active context and the indentation is zero.  Returns `none` when
none of the five line forms matches.  It is only invoked with an empty
context stack, where the source's `result.screens` coincides with the
embedding's finished-screen list. -/
def tryTopLevel (st : PState) (lineNumber currentIndent : Nat)
    (lineContent : List Char) : Option PState :=
  match navigationStackExec lineContent with
  | some root =>
    if st.navigationStacks.length > 0 then
      some (pushErr st ⟨lineNumber, onlyOneNavLongMsg⟩)
    else
      some { st with navigationStacks :=
        st.navigationStacks ++ [.navigation_stack root lineNumber] }
  | none =>
  match tabStackExec lineContent with
  | some w =>
    if st.navigationStacks.length > 0 then
      some (pushErr st ⟨lineNumber, onlyOneNavMsg⟩)
    else
      let tabs := tabNames w
      if tabs.length = 0 then some (pushErr st ⟨lineNumber, tabEmptyMsg⟩)
      else
        some { st with navigationStacks :=
          st.navigationStacks ++ [.tab_stack tabs lineNumber] }
  | none =>
  match drawerStackExec lineContent with
  | some (root, drawer) =>
    if st.navigationStacks.length > 0 then
      some (pushErr st ⟨lineNumber, onlyOneNavMsg⟩)
    else
      some { st with navigationStacks :=
        st.navigationStacks ++ [.drawer_stack root drawer lineNumber] }
  | none =>
  match screenLinkExec lineContent with
  | some (a, b) =>
    some { st with links := st.links ++ [⟨a, b, lineNumber⟩] }
  | none =>
  match screenExec lineContent with
  | some name =>
    let st :=
      if (st.screens.find? (fun s => s.name == name)).isSome then
        pushErr st ⟨lineNumber, dupScreenMsg name⟩
      else st
    some { st with contextStack :=
      ⟨.screen name, currentIndent, lineNumber, []⟩ :: st.contextStack }
  | none => none

/-- The five `.test` checks of source line 158. -/
def anyTopLevelTest (lineContent : List Char) : Bool :=
  (screenExec lineContent).isSome || (navigationStackExec lineContent).isSome ||
    (tabStackExec lineContent).isSome || (drawerStackExec lineContent).isSome ||
    (screenLinkExec lineContent).isSome

/-- Source lines 110-114: a screen context is closed by a line at indentation
zero that is not itself a closing brace.  This is one of the guarded
`contextStack[contextStack.length - 1]` dereferences. -/
def screenDedentE (st : PState) (currentIndent : Nat) (lineContent : List Char) :
    Except String PState := do
  if 0 < st.contextStack.length then
    let top ← getTop st.contextStack
    if isScreenFrame top && currentIndent == 0 && !stackEndTest lineContent then
      pure (foldTop st)
    else pure st
  else pure st

/-- Source lines 116-233: classification of a line that was not consumed by
the closing loop, after any screen de-indent closure. -/
def afterDedent (st : PState) (lineNumber currentIndent : Nat)
    (lineContent : List Char) : PState :=
  -- line 116: activeContext is the top of the stack, or null
  match st.contextStack with
  | [] =>
    match (if currentIndent == 0 then
             tryTopLevel st lineNumber currentIndent lineContent
           else none) with
    | some st' => st'
    | none =>
      -- line 157: no active context and no top-level construct consumed
      if !anyTopLevelTest lineContent then
        pushErr st ⟨lineNumber, topLevelMsg lineContent⟩
      else st
  | f :: rest =>
    if isStackFrame f && stackEndTest lineContent then
      -- lines 165-181: a (possibly mis-indented) brace closing the stack
      let st :=
        match f.kind with
        | .stack t =>
          if currentIndent ≠ f.baseIndent then
            pushErr st ⟨lineNumber, misplacedBraceMsg t f.baseIndent currentIndent⟩
          else st
        | .screen _ => st
      -- line 172: the source pops when the top equals the activeContext
      -- object read at line 116; the stack is unchanged in between, so the
      -- condition always holds and the pop is unconditional
      let st := foldTop st
      if (stackEndReplaceTrim lineContent).isEmpty then st
      else pushErr st ⟨lineNumber, afterBraceMsg⟩
    else if stackEndTest lineContent && isScreenFrame f then
      pushErr st ⟨lineNumber, extraneousInScreenMsg⟩
    else if stackEndTest lineContent then
      pushErr st ⟨lineNumber, extraneousMsg⟩
    else
    let expectedComponentIndent := f.baseIndent + 2
    if currentIndent < expectedComponentIndent then
      pushErr st
        ⟨lineNumber, indentErrMsg (contextTypeDisplay f) expectedComponentIndent currentIndent⟩
    else
    -- lines 200-229: nested constructs; a new element becomes a child of the
    -- active frame (for a new stack, when its frame is later folded)
    if verticalStackStartTest lineContent then
      { st with contextStack :=
        ⟨.stack .vertical_stack, currentIndent, lineNumber, []⟩ :: f :: rest }
    else if horizontalStackStartTest lineContent then
      { st with contextStack :=
        ⟨.stack .horizontal_stack, currentIndent, lineNumber, []⟩ :: f :: rest }
    else
    match labelExec lineContent with
    | some t =>
      { st with contextStack :=
        { f with components := f.components ++ [.label t lineNumber] } :: rest }
    | none =>
    match inputExec lineContent with
    | some p =>
      -- `match[1] || ''`: a missing or empty capture becomes the empty string
      { st with contextStack :=
        { f with components := f.components ++ [.inputC (p.getD "") lineNumber] } :: rest }
    | none =>
    match buttonExec lineContent with
    | some t =>
      { st with contextStack :=
        { f with components := f.components ++ [.button t lineNumber] } :: rest }
    | none =>
    match imageExec lineContent with
    | some src =>
      let st :=
        if !(srcProtocolTest src.data || srcAbsoluteTest src.data ||
             srcFileTest src.data) then
          pushErr st ⟨lineNumber, invalidSrcMsg src⟩
        else st
      { st with contextStack :=
        { f with components := f.components ++ [.image src lineNumber] } :: rest }
    | none =>
      pushErr st
        ⟨lineNumber, invalidSyntaxMsg (contextTypeDisplay f) lineContent⟩

/-- One iteration of the per-line loop body (source lines 77-234). -/
def processLineE (st : PState) (lineNumber : Nat) (rawLine : List Char) :
    Except String PState :=
  let line := trimEnd rawLine
  if blankTest line || commentTest line then Except.ok st
  else
    let currentIndent := indentOf line
    let lineContent := trimStart line
    match popLoop lineContent currentIndent st with
    | (st, true) => Except.ok st
    | (st, false) => do
      let st ← screenDedentE st currentIndent lineContent
      pure (afterDedent st lineNumber currentIndent lineContent)

/-! ## Whole-document pass. -/

def runLinesE : PState → Nat → List (List Char) → Except String PState
  | st, _, [] => Except.ok st
  | st, n, l :: ls => do
    let st' ← processLineE st (n + 1) l
    runLinesE st' (n + 1) ls

/-- Source lines 236-244: report only the innermost unclosed stack. -/
def finalizeUnclosedE (st : PState) : Except String PState := do
  if 0 < st.contextStack.length then
    let innermost ← getTop st.contextStack
    match innermost.kind with
    | .stack t => pure (pushErr st ⟨innermost.lineNumber, unclosedMsg t⟩)
    | .screen _ => pure st
  else pure st

/-- Materialize the still-open frames (in the source the corresponding
objects already live in the result; see the `PState` comment). -/
def closeAllAux : Nat → PState → PState
  | 0, st => st
  | fuel + 1, st =>
    match st.contextStack with
    | [] => st
    | _ :: _ => closeAllAux fuel (foldTop st)

def closeAll (st : PState) : PState :=
  closeAllAux st.contextStack.length st

/-- Source lines 248-253 for a single link, given the declared screen names. -/
def linkErrorsFor (names : List String) (l : ScreenLink) : List ParseError :=
  (if names.contains l.sourceScreenName then []
   else [⟨l.lineNumber, srcNotDefinedMsg l.sourceScreenName⟩]) ++
  (if names.contains l.destinationScreenName then []
   else [⟨l.lineNumber, dstNotDefinedMsg l.destinationScreenName⟩])

/-- Source lines 246-254: cross-reference validation after the main pass. -/
def validateLinks (r : ParseResult) : ParseResult :=
  let screenNames := r.screens.map (fun s => s.name)
  { r with errors := r.errors ++ (r.links.map (linkErrorsFor screenNames)).flatten }

def initState : PState := ⟨[], [], [], [], []⟩

/-- `parseDsl`, with the undefined-dereference branches made explicit. -/
def parseDslE (code : String) : Except String ParseResult := do
  let st ← runLinesE initState 0 (splitLines code.data)
  let st ← finalizeUnclosedE st
  let st := closeAll st
  pure (validateLinks ⟨st.screens, st.navigationStacks, st.links, st.errors⟩)

/-- `parseDsl`: total extraction of `parseDslE` (the error branch is proved
unreachable in claim C1). -/
def parseDsl (code : String) : ParseResult :=
  match parseDslE code with
  | Except.ok r => r
  | Except.error _ => ⟨[], [], [], []⟩

/-! ## Derived notions used by the claims. -/

/-- Substring containment (JS `message.includes(needle)`). -/
def containsSub (needle : List Char) : List Char → Bool
  | [] => needle.isEmpty
  | c :: t => needle.isPrefixOf (c :: t) || containsSub needle t

/-- The registration records (name, declaration line) of the screens a state
holds, in registration order: finished screens first, then the still-open
screen frames from the bottom of the context stack (in the source all of
these already live in `result.screens`). -/
def frameScreens (l : List Frame) : List (String × Nat) :=
  l.reverse.filterMap (fun f =>
    match f.kind with
    | .screen nm => some (nm, f.lineNumber)
    | .stack _ => none)

def screenRecs (st : PState) : List (String × Nat) :=
  st.screens.map (fun s => (s.name, s.lineNumber)) ++ frameScreens st.contextStack

/-- Context-stack well-formedness: every frame except the bottom one is a
stack frame (a screen can only sit at the bottom). -/
def ctxWF (l : List Frame) : Prop :=
  ∀ f ∈ l.dropLast, isStackFrame f = true

/-- A diagnostic produced by the cross-reference link validation pass. -/
def isLinkDiag (e : ParseError) : Bool :=
  "Source screen \"".data.isPrefixOf e.message.data ||
    "Destination screen \"".data.isPrefixOf e.message.data

/-- A line whose content matches one of the three navigation-construct
regexes. -/
def isNavConstructLine (c : List Char) : Bool :=
  (navigationStackExec c).isSome || (tabStackExec c).isSome ||
    (drawerStackExec c).isSome

/-- The duplicate-screen bookkeeping invariant: for every name, the
lineNumbers of the "Duplicate screen name" diagnostics are exactly the
declaration lines of the second and later registered screens of that name. -/
def dupInv (st : PState) : Prop :=
  ∀ N : String,
    (st.errors.filter (fun e => e.message == dupScreenMsg N)).map
      ParseError.lineNumber =
    ((((screenRecs st).filter (fun r => r.1 == N)).map Prod.snd).drop 1)

/-- No diagnostic in the list is a link-validation diagnostic. -/
def noLinkDiag (errs : List ParseError) : Prop :=
  ∀ e ∈ errs, isLinkDiag e = false

/-! ## Totality: every `Except` branch is unreachable. -/

theorem getTop_cons (f : Frame) (r : List Frame) : getTop (f :: r) = Except.ok f := rfl

/-- Unfolding set for the `Except` monad operations. -/
theorem except_bind_ok {α β : Type} (a : α) (f : α → Except String β) :
    (Except.ok a : Except String α) >>= f = f a := rfl

theorem except_pure_def {α : Type} (a : α) :
    (pure a : Except String α) = Except.ok a := rfl

theorem except_map_ok {α β : Type} (g : α → β) (a : α) :
    g <$> (Except.ok a : Except String α) = Except.ok (g a) := rfl

theorem screenDedentE_ok (st : PState) (i : Nat) (c : List Char) :
    ∃ st', screenDedentE st i c = Except.ok st' := by
  unfold screenDedentE
  match h : st.contextStack with
  | [] => simp [h, except_pure_def]
  | f :: fs =>
    rw [if_pos (by simp : 0 < (f :: fs).length), getTop_cons, except_bind_ok]
    split
    · exact ⟨foldTop st, rfl⟩
    · exact ⟨st, rfl⟩

theorem processLineE_ok (st : PState) (n : Nat) (l : List Char) :
    ∃ st', processLineE st n l = Except.ok st' := by
  unfold processLineE
  by_cases hb : (blankTest (trimEnd l) || commentTest (trimEnd l)) = true
  · exact ⟨st, by simp [hb]⟩
  · simp only [hb, if_false, Bool.false_eq_true]
    match hp : popLoop (trimStart (trimEnd l)) (indentOf (trimEnd l)) st with
    | (st1, true) => exact ⟨st1, by simp [hp]⟩
    | (st1, false) =>
      obtain ⟨st2, h2⟩ :=
        screenDedentE_ok st1 (indentOf (trimEnd l)) (trimStart (trimEnd l))
      exact ⟨afterDedent st2 n (indentOf (trimEnd l)) (trimStart (trimEnd l)),
        by simp [hp, h2, except_bind_ok, except_pure_def]⟩

theorem runLinesE_ok (ls : List (List Char)) :
    ∀ st n, ∃ st', runLinesE st n ls = Except.ok st' := by
  induction ls with
  | nil => intro st n; exact ⟨st, rfl⟩
  | cons l ls ih =>
    intro st n
    obtain ⟨st1, h1⟩ := processLineE_ok st (n + 1) l
    obtain ⟨st2, h2⟩ := ih st1 (n + 1)
    exact ⟨st2, by simp [runLinesE, h1, h2, except_bind_ok]⟩

theorem finalizeUnclosedE_ok (st : PState) :
    ∃ st', finalizeUnclosedE st = Except.ok st' := by
  unfold finalizeUnclosedE
  match h : st.contextStack with
  | [] => simp [h, except_pure_def]
  | f :: fs =>
    match hk : f.kind with
    | .stack t =>
      exact ⟨pushErr st ⟨f.lineNumber, unclosedMsg t⟩,
        by simp [h, getTop_cons, hk, except_bind_ok, except_pure_def]⟩
    | .screen s =>
      exact ⟨st, by simp [h, getTop_cons, hk, except_bind_ok, except_pure_def]⟩

/-! ## Preservation lemmas for the state components. -/

theorem pushErr_nav (st : PState) (e : ParseError) :
    (pushErr st e).navigationStacks = st.navigationStacks := rfl

theorem pushErr_links (st : PState) (e : ParseError) :
    (pushErr st e).links = st.links := rfl

theorem pushErr_ctx (st : PState) (e : ParseError) :
    (pushErr st e).contextStack = st.contextStack := rfl

theorem pushErr_screens (st : PState) (e : ParseError) :
    (pushErr st e).screens = st.screens := rfl

theorem pushErr_errors (st : PState) (e : ParseError) :
    (pushErr st e).errors = st.errors ++ [e] := rfl

theorem foldTop_nav (st : PState) :
    (foldTop st).navigationStacks = st.navigationStacks := by
  unfold foldTop
  repeat' split
  all_goals rfl

theorem foldTop_errors (st : PState) :
    (foldTop st).errors = st.errors := by
  unfold foldTop
  repeat' split
  all_goals rfl

theorem foldTop_links (st : PState) :
    (foldTop st).links = st.links := by
  unfold foldTop
  repeat' split
  all_goals rfl

theorem popLoopAux_nav (c : List Char) (i : Nat) :
    ∀ fuel st b, ((popLoopAux c i fuel st b).1).navigationStacks = st.navigationStacks := by
  intro fuel
  induction fuel with
  | zero => intro st b; rfl
  | succ n ih =>
    intro st b
    unfold popLoopAux
    split
    · rfl
    · split
      · rw [ih, foldTop_nav]
      · split
        · rw [ih, foldTop_nav]
        · rfl

theorem popLoopAux_errors (c : List Char) (i : Nat) :
    ∀ fuel st b, ((popLoopAux c i fuel st b).1).errors = st.errors := by
  intro fuel
  induction fuel with
  | zero => intro st b; rfl
  | succ n ih =>
    intro st b
    unfold popLoopAux
    split
    · rfl
    · split
      · rw [ih, foldTop_errors]
      · split
        · rw [ih, foldTop_errors]
        · rfl

theorem popLoopAux_links (c : List Char) (i : Nat) :
    ∀ fuel st b, ((popLoopAux c i fuel st b).1).links = st.links := by
  intro fuel
  induction fuel with
  | zero => intro st b; rfl
  | succ n ih =>
    intro st b
    unfold popLoopAux
    split
    · rfl
    · split
      · rw [ih, foldTop_links]
      · split
        · rw [ih, foldTop_links]
        · rfl

theorem screenDedentE_nav (st : PState) (i : Nat) (c : List Char) (st' : PState)
    (h : screenDedentE st i c = Except.ok st') :
    st'.navigationStacks = st.navigationStacks := by
  unfold screenDedentE at h
  rcases hctx : st.contextStack with _ | ⟨f, fs⟩
  · rw [hctx] at h
    simp [except_pure_def] at h
    rw [← h]
  · rw [hctx, if_pos (by simp : 0 < (f :: fs).length), getTop_cons, except_bind_ok] at h
    split at h
    · simp only [except_pure_def, Except.ok.injEq] at h
      rw [← h, foldTop_nav]
    · simp only [except_pure_def, Except.ok.injEq] at h
      rw [← h]

/-- C1: for every input string the parser runs to completion and returns a
complete `ParseResult`; every error branch of the embedding (the possible
undefined dereferences of the source) is unreachable, so `parseDslE` never
fails and `parseDsl` is its total extraction. -/
theorem c1_parseDsl_total (code : String) :
    parseDslE code = Except.ok (parseDsl code) := by
  obtain ⟨st1, h1⟩ := runLinesE_ok (splitLines code.data) initState 0
  obtain ⟨st2, h2⟩ := finalizeUnclosedE_ok st1
  have : parseDslE code = Except.ok
      (validateLinks ⟨(closeAll st2).screens, (closeAll st2).navigationStacks,
        (closeAll st2).links, (closeAll st2).errors⟩) := by
    simp [parseDslE, h1, h2, except_bind_ok, except_map_ok]
  rw [parseDsl, this]

/-! ## Navigation-config invariant (claim C2). -/

theorem popLoop_nav (c : List Char) (i : Nat) (st : PState) :
    ((popLoop c i st).1).navigationStacks = st.navigationStacks :=
  popLoopAux_nav c i st.contextStack.length st false

theorem tryTopLevel_nav (st : PState) (n i : Nat) (c : List Char) (st' : PState)
    (h : tryTopLevel st n i c = some st') :
    st'.navigationStacks = st.navigationStacks ∨
      (st.navigationStacks = [] ∧ st'.navigationStacks.length = 1) := by
  unfold tryTopLevel at h
  rcases hnav : navigationStackExec c with _ | root
  case some =>
    simp only [hnav] at h
    by_cases hlen : st.navigationStacks.length > 0
    · rw [if_pos hlen] at h
      injection h with h
      subst h
      left
      rfl
    · rw [if_neg hlen] at h
      injection h with h
      subst h
      have hz : st.navigationStacks = [] :=
        List.eq_nil_of_length_eq_zero (Nat.eq_zero_of_not_pos hlen)
      exact Or.inr ⟨hz, by simp [hz]⟩
  simp only [hnav] at h
  rcases htab : tabStackExec c with _ | w
  case some =>
    simp only [htab] at h
    by_cases hlen : st.navigationStacks.length > 0
    · rw [if_pos hlen] at h
      injection h with h
      subst h
      left
      rfl
    · rw [if_neg hlen] at h
      have hz : st.navigationStacks = [] :=
        List.eq_nil_of_length_eq_zero (Nat.eq_zero_of_not_pos hlen)
      split at h
      · injection h with h
        subst h
        left
        rfl
      · injection h with h
        subst h
        exact Or.inr ⟨hz, by simp [hz]⟩
  simp only [htab] at h
  rcases hdra : drawerStackExec c with _ | rd
  case some =>
    simp only [hdra] at h
    by_cases hlen : st.navigationStacks.length > 0
    · rw [if_pos hlen] at h
      injection h with h
      subst h
      left
      rfl
    · rw [if_neg hlen] at h
      injection h with h
      subst h
      have hz : st.navigationStacks = [] :=
        List.eq_nil_of_length_eq_zero (Nat.eq_zero_of_not_pos hlen)
      exact Or.inr ⟨hz, by simp [hz]⟩
  simp only [hdra] at h
  rcases hlink : screenLinkExec c with _ | ab
  case some =>
    simp only [hlink] at h
    injection h with h
    subst h
    left
    rfl
  simp only [hlink] at h
  rcases hscr : screenExec c with _ | nm
  case some =>
    simp only [hscr] at h
    injection h with h
    subst h
    left
    split <;> rfl
  simp only [hscr] at h
  exact absurd h (by simp)

theorem afterDedent_nav (st : PState) (n i : Nat) (c : List Char) :
    (afterDedent st n i c).navigationStacks = st.navigationStacks ∨
      (st.navigationStacks = [] ∧ (afterDedent st n i c).navigationStacks.length = 1) := by
  unfold afterDedent
  rcases hctx : st.contextStack with _ | ⟨f, rest⟩
  · rcases htl : (if i == 0 then tryTopLevel st n i c else none) with _ | st'
    · dsimp only
      split
      · left; exact pushErr_nav _ _
      · left; rfl
    · dsimp only
      have h2 : tryTopLevel st n i c = some st' := by
        by_cases hi : (i == 0) = true
        · rw [hi] at htl; simpa using htl
        · rw [if_neg (by simpa using hi)] at htl; exact absurd htl (by simp)
      exact tryTopLevel_nav st n i c st' h2
  · left
    dsimp only
    repeat' split
    all_goals simp [pushErr_nav, foldTop_nav, pushErr]

theorem processLineE_nav (st st' : PState) (n : Nat) (l : List Char)
    (h : processLineE st n l = Except.ok st') :
    st'.navigationStacks = st.navigationStacks ∨
      (st.navigationStacks = [] ∧ st'.navigationStacks.length = 1) := by
  unfold processLineE at h
  dsimp only at h
  split at h
  · injection h with h; subst h; left; rfl
  · split at h
    · rename_i st1 heq
      injection h with h
      subst h
      left
      have := popLoop_nav (trimStart (trimEnd l)) (indentOf (trimEnd l)) st
      rw [heq] at this
      exact this
    · rename_i st1 heq
      obtain ⟨st2, h2⟩ :=
        screenDedentE_ok st1 (indentOf (trimEnd l)) (trimStart (trimEnd l))
      rw [h2, except_bind_ok, except_pure_def] at h
      injection h with h
      have hnav1 : st1.navigationStacks = st.navigationStacks := by
        have := popLoop_nav (trimStart (trimEnd l)) (indentOf (trimEnd l)) st
        rw [heq] at this
        exact this
      have hnav2 : st2.navigationStacks = st.navigationStacks := by
        rw [screenDedentE_nav st1 _ _ st2 h2, hnav1]
      rcases afterDedent_nav st2 n (indentOf (trimEnd l)) (trimStart (trimEnd l)) with
        hl | ⟨he, hlen⟩
      · left; rw [← h, hl, hnav2]
      · right; exact ⟨by rw [← hnav2, he], by rw [← h]; exact hlen⟩

theorem runLinesE_nav (ls : List (List Char)) :
    ∀ st n st', runLinesE st n ls = Except.ok st' →
      st.navigationStacks.length ≤ 1 → st'.navigationStacks.length ≤ 1 := by
  induction ls with
  | nil =>
    intro st n st' h hle
    injection h with h
    subst h
    exact hle
  | cons l ls ih =>
    intro st n st' h hle
    obtain ⟨st1, h1⟩ := processLineE_ok st (n + 1) l
    rw [runLinesE, h1, except_bind_ok] at h
    have hle1 : st1.navigationStacks.length ≤ 1 := by
      rcases processLineE_nav st st1 (n + 1) l h1 with heq | ⟨_, hlen⟩
      · rw [heq]; exact hle
      · rw [hlen]
    exact ih st1 (n + 1) st' h hle1

theorem closeAllAux_nav :
    ∀ fuel st, (closeAllAux fuel st).navigationStacks = st.navigationStacks := by
  intro fuel
  induction fuel with
  | zero => intro st; rfl
  | succ n ih =>
    intro st
    unfold closeAllAux
    split
    · rfl
    · rw [ih, foldTop_nav]

theorem finalizeUnclosedE_nav (st st' : PState)
    (h : finalizeUnclosedE st = Except.ok st') :
    st'.navigationStacks = st.navigationStacks := by
  unfold finalizeUnclosedE at h
  rcases hctx : st.contextStack with _ | ⟨f, fs⟩
  · rw [hctx] at h
    simp only [List.length_nil, Nat.lt_irrefl, if_false, except_pure_def] at h
    injection h with h
    rw [← h]
  · rw [hctx, if_pos (by simp : 0 < (f :: fs).length), getTop_cons, except_bind_ok] at h
    split at h
    all_goals
      (simp only [except_pure_def] at h
       injection h with h
       rw [← h]
       try rfl)

/-- The final result's fields in terms of the state after the main pass. -/
theorem parseDsl_eq (code : String) (st1 st2 : PState)
    (h1 : runLinesE initState 0 (splitLines code.data) = Except.ok st1)
    (h2 : finalizeUnclosedE st1 = Except.ok st2) :
    parseDsl code = validateLinks
      ⟨(closeAll st2).screens, (closeAll st2).navigationStacks,
        (closeAll st2).links, (closeAll st2).errors⟩ := by
  have hE : parseDslE code = Except.ok (validateLinks
      ⟨(closeAll st2).screens, (closeAll st2).navigationStacks,
        (closeAll st2).links, (closeAll st2).errors⟩) := by
    simp [parseDslE, h1, h2, except_bind_ok, except_map_ok]
  have := c1_parseDsl_total code
  rw [hE] at this
  injection this with this
  rw [this]

theorem validateLinks_nav (r : ParseResult) :
    (validateLinks r).navigationStacks = r.navigationStacks := rfl

/-! ## Head-character facts for keyword lines. -/

theorem dropKeyword_cons_head (k : Char) (ks l r : List Char)
    (h : dropKeyword (k :: ks) l = some r) :
    ∃ c cs, l = c :: cs ∧ lowerEq c k = true := by
  cases l with
  | nil => exact absurd h (by simp [dropKeyword])
  | cons c cs =>
    by_cases hc : lowerEq c k = true
    · exact ⟨c, cs, rfl, hc⟩
    · rw [dropKeyword, if_neg (by simpa using hc)] at h
      exact absurd h (by simp)

theorem space_toLower (s : Char) (hs : isSpaceChar s = true) : s.toLower = s := by
  simp only [isSpaceChar, Bool.or_eq_true, decide_eq_true_eq] at hs
  rcases hs with ((((h | h) | h) | h) | h) | h <;> subst h <;> decide

theorem navigationStackExec_key (c : List Char)
    (h : (navigationStackExec c).isSome = true) :
    ∃ r, dropKeyword "navigation_stack".data c = some r := by
  unfold navigationStackExec at h
  cases hd : dropKeyword "navigation_stack".data c with
  | none => rw [hd] at h; simp at h
  | some r => exact ⟨r, rfl⟩

theorem tabStackExec_key (c : List Char)
    (h : (tabStackExec c).isSome = true) :
    ∃ r, dropKeyword "tab_stack".data c = some r := by
  unfold tabStackExec at h
  cases hd : dropKeyword "tab_stack".data c with
  | none => rw [hd] at h; simp at h
  | some r => exact ⟨r, rfl⟩

theorem drawerStackExec_key (c : List Char)
    (h : (drawerStackExec c).isSome = true) :
    ∃ r, dropKeyword "drawer_stack".data c = some r := by
  unfold drawerStackExec at h
  cases hd : dropKeyword "drawer_stack".data c with
  | none => rw [hd] at h; simp at h
  | some r => exact ⟨r, rfl⟩

/-- A line matched by one of the navigation regexes starts with a letter, so
it is neither blank nor a comment. -/
theorem navLine_head (c : List Char) (h : isNavConstructLine c = true) :
    ∃ c0 cs, c = c0 :: cs ∧ isSpaceChar c0 = false ∧ c0 ≠ '/' ∧ c0 ≠ '#' := by
  have hgen : ∀ (k : Char) (ks r : List Char), dropKeyword (k :: ks) c = some r →
      isSpaceChar k = false → k ≠ '/' → k ≠ '#' → k.toLower = k →
      ∃ c0 cs, c = c0 :: cs ∧ isSpaceChar c0 = false ∧ c0 ≠ '/' ∧ c0 ≠ '#' := by
    intro k ks r hd hks hk1 hk2 hk3
    obtain ⟨c0, cs, hc, hl⟩ := dropKeyword_cons_head k ks c r hd
    have hl' : c0.toLower = k := by
      have := of_decide_eq_true hl
      rw [hk3] at this
      exact this
    refine ⟨c0, cs, hc, ?_, ?_, ?_⟩
    · by_contra hsp
      have hsp' : isSpaceChar c0 = true := by
        revert hsp
        cases isSpaceChar c0 <;> simp
      have heq := space_toLower c0 hsp'
      rw [heq] at hl'
      rw [hl'] at hsp'
      rw [hsp'] at hks
      exact absurd hks (by simp)
    · intro hcc
      rw [hcc] at hl'
      have : ('/' : Char).toLower = '/' := by decide
      rw [this] at hl'
      exact hk1 hl'.symm
    · intro hcc
      rw [hcc] at hl'
      have : ('#' : Char).toLower = '#' := by decide
      rw [this] at hl'
      exact hk2 hl'.symm
  unfold isNavConstructLine at h
  rcases Bool.or_eq_true_iff.mp h with h' | hD
  · rcases Bool.or_eq_true_iff.mp h' with hN | hT
    · obtain ⟨r, hr⟩ := navigationStackExec_key c hN
      rw [show "navigation_stack".data = 'n' :: "avigation_stack".data from rfl] at hr
      exact hgen 'n' _ r hr (by decide) (by decide) (by decide) (by decide)
    · obtain ⟨r, hr⟩ := tabStackExec_key c hT
      rw [show "tab_stack".data = 't' :: "ab_stack".data from rfl] at hr
      exact hgen 't' _ r hr (by decide) (by decide) (by decide) (by decide)
  · obtain ⟨r, hr⟩ := drawerStackExec_key c hD
    rw [show "drawer_stack".data = 'd' :: "rawer_stack".data from rfl] at hr
    exact hgen 'd' _ r hr (by decide) (by decide) (by decide) (by decide)

theorem blankTest_cons_false (c0 : Char) (cs : List Char)
    (h : isSpaceChar c0 = false) : blankTest (c0 :: cs) = false := by
  simp [blankTest, h]

theorem trimStart_cons (c0 : Char) (cs : List Char)
    (h : isSpaceChar c0 = false) : trimStart (c0 :: cs) = c0 :: cs := by
  simp [trimStart, List.dropWhile_cons, h]

theorem indentOf_cons_zero (c0 : Char) (cs : List Char)
    (h : isSpaceChar c0 = false) : indentOf (c0 :: cs) = 0 := by
  simp [indentOf, List.takeWhile_cons, h]

theorem commentTest_cons_false (c0 : Char) (cs : List Char)
    (hs : isSpaceChar c0 = false) (h1 : c0 ≠ '/') (h2 : c0 ≠ '#') :
    commentTest (c0 :: cs) = false := by
  unfold commentTest
  rw [trimStart_cons c0 cs hs]
  split
  · rename_i heq
    have : c0 = '/' := (List.cons.injEq ..).mp heq |>.1
    exact absurd this h1
  · rename_i heq
    have : c0 = '#' := (List.cons.injEq ..).mp heq |>.1
    exact absurd this h2
  · rfl

/-- A later navigation-construct line at top level is discarded: the state
changes only by one appended diagnostic. -/
theorem processLine_nav_discard (st : PState) (cfg : NavigationConfig)
    (navs : List NavigationConfig) (n : Nat) (l : List Char)
    (hctx : st.contextStack = [])
    (hnav : st.navigationStacks = cfg :: navs)
    (hline : isNavConstructLine (trimEnd l) = true) :
    ∃ m, processLineE st n l = Except.ok (pushErr st ⟨n, m⟩) ∧
      "Only one global navigation construct".data.isPrefixOf m.data = true := by
  obtain ⟨c0, cs, hc, hs, h1, h2⟩ := navLine_head (trimEnd l) hline
  have hblank : blankTest (trimEnd l) = false := by
    rw [hc]; exact blankTest_cons_false _ _ hs
  have hcom : commentTest (trimEnd l) = false := by
    rw [hc]; exact commentTest_cons_false _ _ hs h1 h2
  have hts : trimStart (trimEnd l) = trimEnd l := by
    rw [hc]; exact trimStart_cons _ _ hs
  have hind : indentOf (trimEnd l) = 0 := by
    rw [hc]; exact indentOf_cons_zero _ _ hs
  have hpop : popLoop (trimStart (trimEnd l)) (indentOf (trimEnd l)) st = (st, false) := by
    unfold popLoop
    rw [hctx]
    rfl
  have hded : screenDedentE st (indentOf (trimEnd l)) (trimStart (trimEnd l)) =
      Except.ok st := by
    unfold screenDedentE
    rw [hctx]
    simp [except_pure_def]
  have hnavlen : st.navigationStacks.length > 0 := by rw [hnav]; simp
  have main : ∀ m : String,
      tryTopLevel st n (indentOf (trimEnd l)) (trimStart (trimEnd l)) =
        some (pushErr st ⟨n, m⟩) →
      processLineE st n l = Except.ok (pushErr st ⟨n, m⟩) := by
    intro m htl
    have haft : afterDedent st n (indentOf (trimEnd l)) (trimStart (trimEnd l)) =
        pushErr st ⟨n, m⟩ := by
      rw [hind] at htl
      unfold afterDedent
      rw [hctx]
      dsimp only
      rw [hind]
      simp only [beq_self_eq_true, if_true, htl]
    unfold processLineE
    dsimp only
    rw [hblank, hcom]
    simp only [Bool.or_self, Bool.false_eq_true, if_false]
    rw [hpop]
    dsimp only
    rw [hded, except_bind_ok, except_pure_def, haft]
  rcases hN : navigationStackExec (trimEnd l) with _ | root
  · rcases hT : tabStackExec (trimEnd l) with _ | w
    · rcases hD : drawerStackExec (trimEnd l) with _ | rd
      · exfalso
        unfold isNavConstructLine at hline
        rw [hN, hT, hD] at hline
        simp at hline
      · refine ⟨onlyOneNavMsg, main _ ?_, by decide⟩
        unfold tryTopLevel
        rw [hts]
        simp only [hN, hT, hD]
        rw [if_pos hnavlen]
    · refine ⟨onlyOneNavMsg, main _ ?_, by decide⟩
      unfold tryTopLevel
      rw [hts]
      simp only [hN, hT]
      rw [if_pos hnavlen]
  · refine ⟨onlyOneNavLongMsg, main _ ?_, by decide⟩
    unfold tryTopLevel
    rw [hts]
    simp only [hN]
    rw [if_pos hnavlen]

/-- C2: (a) for every input the returned `navigationStacks` has at most one
entry, and (b) whenever a navigation construct is already registered, any
later top-level `navigation_stack` / `tab_stack` / `drawer_stack` line leaves
the whole state unchanged except for exactly one appended diagnostic whose
message begins "Only one global navigation construct" (the source emits the
long variant for `navigation_stack` and the short variant for the other two);
in particular the first registered config is retained and the later one is
discarded. -/
theorem c2_single_navigation :
    (∀ code : String, (parseDsl code).navigationStacks.length ≤ 1) ∧
    (∀ (st : PState) (cfg : NavigationConfig) (navs : List NavigationConfig)
       (n : Nat) (l : List Char),
      st.contextStack = [] → st.navigationStacks = cfg :: navs →
      isNavConstructLine (trimEnd l) = true →
      ∃ m, processLineE st n l = Except.ok (pushErr st ⟨n, m⟩) ∧
        "Only one global navigation construct".data.isPrefixOf m.data = true) := by
  constructor
  · intro code
    obtain ⟨st1, h1⟩ := runLinesE_ok (splitLines code.data) initState 0
    obtain ⟨st2, h2⟩ := finalizeUnclosedE_ok st1
    rw [parseDsl_eq code st1 st2 h1 h2, validateLinks_nav]
    show (closeAll st2).navigationStacks.length ≤ 1
    rw [closeAll, closeAllAux_nav, finalizeUnclosedE_nav st1 st2 h2]
    exact runLinesE_nav (splitLines code.data) initState 0 st1 h1 (by simp [initState])
  · intro st cfg navs n l hctx hnav hline
    exact processLine_nav_discard st cfg navs n l hctx hnav hline

/-- C3 (code bug): the source's "content after closing brace" diagnostic is
dead code, because `stackEndRegex` only matches a brace *alone* on its line.
On the repository's own test input (a correctly indented `}` followed by
`label "after brace"` while the innermost context is a `vertical_stack`) the
parser emits a generic invalid-syntax diagnostic instead, and no error
message mentioning "after closing brace" ever appears; the stack is closed
silently by the de-indentation rule, not by the brace branch. -/
theorem c3_after_brace_diagnostic_not_emitted :
    ((parseDsl "screen ErrorLine\n    vertical_stack \x7b\n        label \"test\"\n    \x7d label \"after brace\"\n").errors.map
        ParseError.message =
      ["Invalid syntax or misplaced content within \x27screen\x27: \"\x7d label \"after brace\"\""]) ∧
    (parseDsl "screen ErrorLine\n    vertical_stack \x7b\n        label \"test\"\n    \x7d label \"after brace\"\n").errors.all
      (fun e => containsSub "after closing brace".data e.message.data = false) = true := by
  decide

/-- C5 (code bug): on the unclosed-container scenario input the parser emits
exactly one diagnostic, at line 2 (the opening line of the innermost unclosed
container), but its message reads "Unclosed vertical stack ..." (the source
applies `.replace(\x27_\x27, \x27 \x27)` to the type), not the
"Unclosed vertical_stack ..." required by the claim and by the repository's
own tests. -/
theorem c5_unclosed_message :
    ((parseDsl "screen S\n  vertical_stack \x7b\n    label \"x\"\n").errors =
      [⟨2, "Unclosed vertical stack block started on this line (missing \x27\x7d\x27?)."⟩]) ∧
    containsSub "Unclosed vertical_stack".data
      "Unclosed vertical stack block started on this line (missing \x27\x7d\x27?).".data = false ∧
    containsSub "Unclosed vertical stack".data
      "Unclosed vertical stack block started on this line (missing \x27\x7d\x27?).".data = true := by
  decide

/-- C10: keyword matching is case-insensitive (`SCREEN Home` parses exactly
like `screen Home`), while duplicate-screen detection compares the captured
names case-sensitively, so `screen Home` followed by `screen HOME` yields two
screens and no diagnostic. -/
theorem c10_keyword_case_insensitive_names_case_sensitive :
    parseDsl "SCREEN Home\n  label \"hi\"\n" = parseDsl "screen Home\n  label \"hi\"\n" ∧
    (parseDsl "screen Home\nscreen HOME\n").screens.map Screen.name = ["Home", "HOME"] ∧
    (parseDsl "screen Home\nscreen HOME\n").errors = [] := by
  refine ⟨rfl, by decide, by decide⟩

/-! ## Replicate-indented brace lines (claims C4 and C6). -/

theorem dropWhile_replicate_space (k : Nat) (r : List Char) :
    List.dropWhile isSpaceChar (List.replicate k ' ' ++ r) =
      List.dropWhile isSpaceChar r := by
  induction k with
  | zero => simp
  | succ n ih => simpa [List.replicate_succ, List.dropWhile_cons] using ih

theorem takeWhile_replicate_space_brace (k : Nat) :
    List.takeWhile isSpaceChar (List.replicate k ' ' ++ ['\x7d']) =
      List.replicate k ' ' := by
  induction k with
  | zero => decide
  | succ n ih =>
    simp only [List.replicate_succ, List.cons_append, List.takeWhile_cons]
    rw [if_pos (by decide : isSpaceChar ' ' = true), ih]

theorem trimEnd_append_nonspace (xs : List Char) (c : Char)
    (h : isSpaceChar c = false) : trimEnd (xs ++ [c]) = xs ++ [c] := by
  unfold trimEnd
  rw [List.reverse_append]
  simp [List.dropWhile_cons, h]

theorem braceLine_trimEnd (k : Nat) :
    trimEnd (List.replicate k ' ' ++ ['\x7d']) = List.replicate k ' ' ++ ['\x7d'] :=
  trimEnd_append_nonspace _ _ (by decide)

theorem braceLine_trimStart (k : Nat) :
    trimStart (List.replicate k ' ' ++ ['\x7d']) = ['\x7d'] := by
  unfold trimStart
  rw [dropWhile_replicate_space]
  decide

theorem braceLine_indentOf (k : Nat) :
    indentOf (List.replicate k ' ' ++ ['\x7d']) = k := by
  unfold indentOf
  rw [takeWhile_replicate_space_brace]
  simp

theorem braceLine_blankTest (k : Nat) :
    blankTest (List.replicate k ' ' ++ ['\x7d']) = false := by
  unfold blankTest
  rw [List.all_append]
  rw [show List.all ['\x7d'] isSpaceChar = false from by decide, Bool.and_false]

theorem braceLine_commentTest (k : Nat) :
    commentTest (List.replicate k ' ' ++ ['\x7d']) = false := by
  unfold commentTest
  rw [show trimStart (List.replicate k ' ' ++ ['\x7d']) = ['\x7d'] from
    braceLine_trimStart k]
  rfl

/-- C4 counterexample: input whose third line is a closing-brace-only line at
indentation 1 while the innermost open Container (`vertical_stack`) has
`baseIndent` 2.  The claim demands a misplaced-closing-brace diagnostic; the
parser instead pops the stack silently by de-indentation and reports only an
extraneous-brace-in-screen diagnostic — no message mentions
"Misplaced closing brace". -/
theorem c4_counterexample :
    ((parseDsl "screen S\n  vertical_stack \x7b\n \x7d\n").errors.map ParseError.message =
      ["Extraneous closing brace \x27\x7d\x27 not valid within a screen context."]) ∧
    (parseDsl "screen S\n  vertical_stack \x7b\n \x7d\n").errors.all
      (fun e => containsSub "Misplaced closing brace".data e.message.data = false) = true := by
  decide

/-- C4 (amended): the misplaced-closing-brace diagnostic fires exactly for an
*over-indented* brace: whenever the innermost open context is a Container
(stack) and a closing-brace-only line arrives at indentation strictly greater
than its `baseIndent`, the parser appends one diagnostic naming the stack
kind and both indentations and still pops that Container context (a brace at
indentation at most `baseIndent` instead closes the container silently via
the de-indentation rule, as the counterexample shows). -/
theorem c4_misplaced_brace_overindent (st : PState) (f : Frame) (rest : List Frame)
    (t : StackType) (n k : Nat)
    (hctx : st.contextStack = f :: rest)
    (hk : f.kind = ContainerKind.stack t)
    (hgt : f.baseIndent < k) :
    processLineE st n (List.replicate k ' ' ++ ['\x7d']) =
      Except.ok (foldTop (pushErr st ⟨n, misplacedBraceMsg t f.baseIndent k⟩)) := by
  have hne : k ≠ f.baseIndent := Nat.ne_of_gt hgt
  have hsf : isStackFrame f = true := by rw [isStackFrame, hk]
  have hnsf : isScreenFrame f = false := by rw [isScreenFrame, hk]
  unfold processLineE
  dsimp only
  rw [braceLine_trimEnd, braceLine_blankTest, braceLine_commentTest]
  rw [braceLine_indentOf, braceLine_trimStart]
  have hpop : popLoop ['\x7d'] k st = (st, false) := by
    unfold popLoop
    rw [hctx, show (f :: rest).length = rest.length + 1 from rfl]
    simp only [popLoopAux]
    rw [hctx]
    dsimp only
    rw [if_neg (by simp [hsf, hne]),
        if_neg (by simp [hsf]; omega)]
  rw [hpop]
  dsimp only
  have hded : screenDedentE st k ['\x7d'] = Except.ok st := by
    unfold screenDedentE
    rw [hctx, if_pos (by simp : 0 < (f :: rest).length), getTop_cons,
        except_bind_ok, if_neg (by simp [hnsf])]
    rfl
  have haft : afterDedent st n k ['\x7d'] =
      foldTop (pushErr st ⟨n, misplacedBraceMsg t f.baseIndent k⟩) := by
    unfold afterDedent
    rw [hctx]
    dsimp only
    rw [if_pos (show (isStackFrame f && stackEndTest ['\x7d']) = true from by
      rw [hsf]; decide)]
    rw [hk]
    dsimp only
    rw [if_pos hne]
    rw [if_pos (show (stackEndReplaceTrim ['\x7d']).isEmpty = true from by decide)]
  rw [hded, except_bind_ok, except_pure_def, haft]
  rfl

theorem c4_misplaced_brace_overindent_witness :
    processLineE ⟨[], [], [], [],
        [⟨ContainerKind.stack StackType.vertical_stack, 2, 2, []⟩,
         ⟨ContainerKind.screen "S", 0, 1, []⟩]⟩ 3
      (List.replicate 4 ' ' ++ ['\x7d']) =
    Except.ok (foldTop (pushErr ⟨[], [], [], [],
        [⟨ContainerKind.stack StackType.vertical_stack, 2, 2, []⟩,
         ⟨ContainerKind.screen "S", 0, 1, []⟩]⟩
      ⟨3, misplacedBraceMsg StackType.vertical_stack 2 4⟩)) :=
  c4_misplaced_brace_overindent
    ⟨[], [], [], [],
      [⟨ContainerKind.stack StackType.vertical_stack, 2, 2, []⟩,
       ⟨ContainerKind.screen "S", 0, 1, []⟩]⟩
    ⟨ContainerKind.stack StackType.vertical_stack, 2, 2, []⟩
    [⟨ContainerKind.screen "S", 0, 1, []⟩]
    StackType.vertical_stack 3 4 rfl rfl (by decide)

/-- C6: brace/indent closure equivalence.  With the innermost open context a
Container (stack) frame `f` (and any stack frame below it opened at a smaller
indentation, as is always the case for reachable stacks), (a) a
closing-brace-only line at exactly `f.baseIndent` produces the popped state
`foldTop st` with no diagnostic, and (b) any non-blank, non-comment,
non-brace line de-indented to at most `f.baseIndent` is processed exactly as
it would be after that explicit closing brace: the de-indent closure is
silent and yields the same state, hence the same tree and diagnostics. -/
theorem c6_brace_indent_equiv (st : PState) (f : Frame) (rest : List Frame)
    (t : StackType) (n m : Nat) (l : List Char)
    (hctx : st.contextStack = f :: rest)
    (hk : f.kind = ContainerKind.stack t)
    (hrest : ∀ g, rest.head? = some g → isStackFrame g = true →
      g.baseIndent < f.baseIndent)
    (hnb : blankTest (trimEnd l) = false)
    (hnc : commentTest (trimEnd l) = false)
    (hse : stackEndTest (trimStart (trimEnd l)) = false)
    (hind : indentOf (trimEnd l) ≤ f.baseIndent) :
    processLineE st n (List.replicate f.baseIndent ' ' ++ ['\x7d']) =
      Except.ok (foldTop st) ∧
    processLineE st m l = processLineE (foldTop st) m l := by
  have hsf : isStackFrame f = true := by rw [isStackFrame, hk]
  have hbrace : ∀ st1 : PState, popLoop ['\x7d'] f.baseIndent st = (st1, true) →
      processLineE st n (List.replicate f.baseIndent ' ' ++ ['\x7d']) =
        Except.ok st1 := by
    intro st1 hpop
    unfold processLineE
    dsimp only
    rw [braceLine_trimEnd, braceLine_blankTest, braceLine_commentTest,
        braceLine_indentOf, braceLine_trimStart, hpop]
    rfl
  have hdeindent : ∀ st2 : PState,
      popLoop (trimStart (trimEnd l)) (indentOf (trimEnd l)) st =
        popLoop (trimStart (trimEnd l)) (indentOf (trimEnd l)) st2 →
      processLineE st m l = processLineE st2 m l := by
    intro st2 hpopeq
    unfold processLineE
    dsimp only
    rw [hnb, hnc, hpopeq]
    rw [if_neg (show ¬((false || false) = true) from by decide),
        if_neg (show ¬((false || false) = true) from by decide)]
  rcases rest with _ | ⟨p, rs⟩
  · have hfold : foldTop st =
        ⟨st.screens, st.navigationStacks, st.links, st.errors, []⟩ := by
      unfold foldTop
      rw [hctx]
      dsimp only
      rw [hk]
    constructor
    · refine hbrace (foldTop st) ?_
      unfold popLoop
      rw [hctx, show ([f] : List Frame).length = 0 + 1 from rfl]
      simp only [popLoopAux]
      rw [hctx]
      dsimp only
      rw [if_pos (show (isStackFrame f && stackEndTest ['\x7d'] &&
            (f.baseIndent == f.baseIndent)) = true from by simp [hsf]; decide)]
      rw [show (false || (stackEndReplaceTrim ['\x7d']).isEmpty) = true from by decide]
    · refine hdeindent (foldTop st) ?_
      unfold popLoop
      rw [hctx, show ([f] : List Frame).length = 0 + 1 from rfl]
      simp only [popLoopAux]
      rw [hctx]
      dsimp only
      rw [if_neg (by simp [hse]), if_pos (by simp [hsf, hind])]
      rw [hfold]
      rfl
  · have hfold : foldTop st =
        ⟨st.screens, st.navigationStacks, st.links, st.errors,
          Frame.mk p.kind p.baseIndent p.lineNumber
            (p.components ++ [DslElement.stack t f.components f.lineNumber]) :: rs⟩ := by
      unfold foldTop
      rw [hctx]
      dsimp only
      rw [hk]
    have hstop : ∀ b : Bool, popLoopAux ['\x7d'] f.baseIndent (rs.length + 1)
        (foldTop st) b = (foldTop st, b) := by
      intro b
      simp only [popLoopAux]
      rw [hfold]
      dsimp only
      rcases hpk : p.kind with nm | pt
      · rw [if_neg (by simp [isStackFrame, hpk]),
            if_neg (by simp [isStackFrame, hpk])]
      · have hlt : p.baseIndent < f.baseIndent :=
          hrest p rfl (by rw [isStackFrame, hpk])
        rw [if_neg (by
              simp only [isStackFrame, hpk, Bool.true_and, Bool.and_eq_true,
                beq_iff_eq, decide_eq_true_eq]
              intro hcc
              omega),
            if_neg (by
              simp only [isStackFrame, hpk, Bool.true_and, decide_eq_true_eq]
              omega)]
    constructor
    · refine hbrace (foldTop st) ?_
      unfold popLoop
      rw [hctx, show (f :: p :: rs).length = (rs.length + 1) + 1 from rfl]
      simp only [popLoopAux]
      rw [hctx]
      dsimp only
      rw [if_pos (show (isStackFrame f && stackEndTest ['\x7d'] &&
            (f.baseIndent == f.baseIndent)) = true from by simp [hsf]; decide)]
      rw [show (false || (stackEndReplaceTrim ['\x7d']).isEmpty) = true from by decide]
      exact hstop true
    · refine hdeindent (foldTop st) ?_
      unfold popLoop
      rw [hctx, show (f :: p :: rs).length = (rs.length + 1) + 1 from rfl]
      simp only [popLoopAux]
      rw [hctx]
      dsimp only
      rw [if_neg (by simp [hse]), if_pos (by simp [hsf, hind])]
      rw [show (foldTop st).contextStack.length = rs.length + 1 from by
        rw [hfold]
        rfl]
      rfl

theorem c6_brace_indent_equiv_witness :
    processLineE ⟨[], [], [], [],
        [⟨ContainerKind.stack StackType.vertical_stack, 2, 2, []⟩,
         ⟨ContainerKind.screen "S", 0, 1, []⟩]⟩ 3
      (List.replicate 2 ' ' ++ ['\x7d']) =
    Except.ok (foldTop ⟨[], [], [], [],
        [⟨ContainerKind.stack StackType.vertical_stack, 2, 2, []⟩,
         ⟨ContainerKind.screen "S", 0, 1, []⟩]⟩) ∧
    processLineE ⟨[], [], [], [],
        [⟨ContainerKind.stack StackType.vertical_stack, 2, 2, []⟩,
         ⟨ContainerKind.screen "S", 0, 1, []⟩]⟩ 3 "screen T".data =
    processLineE (foldTop ⟨[], [], [], [],
        [⟨ContainerKind.stack StackType.vertical_stack, 2, 2, []⟩,
         ⟨ContainerKind.screen "S", 0, 1, []⟩]⟩) 3 "screen T".data :=
  c6_brace_indent_equiv
    ⟨[], [], [], [],
      [⟨ContainerKind.stack StackType.vertical_stack, 2, 2, []⟩,
       ⟨ContainerKind.screen "S", 0, 1, []⟩]⟩
    ⟨ContainerKind.stack StackType.vertical_stack, 2, 2, []⟩
    [⟨ContainerKind.screen "S", 0, 1, []⟩]
    StackType.vertical_stack 3 3 "screen T".data rfl rfl
    (by
      intro g hg hs
      injection hg with hg
      rw [← hg] at hs
      exact absurd hs (by decide))
    (by decide) (by decide) (by decide) (by decide)

theorem c2_single_navigation_witness :
    (parseDsl "navigation_stack root=A\ntab_stack tabs=[B]\n").navigationStacks.length ≤ 1 ∧
    ∃ m, processLineE ⟨[], [NavigationConfig.navigation_stack "A" 1], [], [], []⟩ 2
        "tab_stack tabs=[B]".data =
      Except.ok (pushErr ⟨[], [NavigationConfig.navigation_stack "A" 1], [], [], []⟩ ⟨2, m⟩) ∧
      "Only one global navigation construct".data.isPrefixOf m.data = true :=
  ⟨c2_single_navigation.1 _,
   c2_single_navigation.2 ⟨[], [NavigationConfig.navigation_stack "A" 1], [], [], []⟩
     (NavigationConfig.navigation_stack "A" 1) [] 2 "tab_stack tabs=[B]".data
     rfl rfl (by decide)⟩

/-! ## Context-stack well-formedness and screen-record preservation
(claim C7). -/

theorem ctxWF_nil : ctxWF [] := by
  intro f hf
  simp at hf

theorem ctxWF_cons_iff (f : Frame) (rest : List Frame) :
    ctxWF (f :: rest) ↔ (rest = [] ∨ (isStackFrame f = true ∧ ctxWF rest)) := by
  rcases rest with _ | ⟨r, rs⟩
  · simp [ctxWF]
  · unfold ctxWF
    rw [List.dropLast_cons₂]
    simp [List.forall_mem_cons]

theorem isStackFrame_update (f : Frame) (x : List DslElement) :
    isStackFrame { f with components := x } = isStackFrame f := rfl

theorem frameScreens_cons_stack (f : Frame) (rest : List Frame) (t : StackType)
    (hk : f.kind = ContainerKind.stack t) :
    frameScreens (f :: rest) = frameScreens rest := by
  unfold frameScreens
  rw [List.reverse_cons, List.filterMap_append]
  simp [hk]

theorem frameScreens_cons_screen (f : Frame) (rest : List Frame) (nm : String)
    (hk : f.kind = ContainerKind.screen nm) :
    frameScreens (f :: rest) = frameScreens rest ++ [(nm, f.lineNumber)] := by
  unfold frameScreens
  rw [List.reverse_cons, List.filterMap_append]
  simp [hk]

theorem frameScreens_congr_head (p p' : Frame) (rs : List Frame)
    (hk : p'.kind = p.kind) (hln : p'.lineNumber = p.lineNumber) :
    frameScreens (p' :: rs) = frameScreens (p :: rs) := by
  unfold frameScreens
  rw [List.reverse_cons, List.reverse_cons, List.filterMap_append,
      List.filterMap_append]
  congr 1
  simp only [List.filterMap_cons, List.filterMap_nil]
  rw [hk, hln]

/-- Popping a frame (with a well-formed stack) keeps the context stack
well-formed and leaves the registration records untouched. -/
theorem foldTop_pres (st : PState) (h : ctxWF st.contextStack) :
    ctxWF (foldTop st).contextStack ∧ screenRecs (foldTop st) = screenRecs st := by
  rcases hctx : st.contextStack with _ | ⟨f, rest⟩
  · have : foldTop st = st := by unfold foldTop; rw [hctx]
    rw [this]
    exact ⟨hctx ▸ h, rfl⟩
  · rw [hctx] at h
    rcases hk : f.kind with nm | t
    · have hrest : rest = [] := by
        rcases (ctxWF_cons_iff f rest).mp h with h0 | ⟨hs, _⟩
        · exact h0
        · rw [isStackFrame, hk] at hs
          exact absurd hs (by simp)
      subst hrest
      have hfold : foldTop st =
          ⟨st.screens ++ [⟨nm, f.components, f.lineNumber⟩],
            st.navigationStacks, st.links, st.errors, []⟩ := by
        unfold foldTop
        rw [hctx]
        dsimp only
        rw [hk]
      rw [hfold]
      refine ⟨ctxWF_nil, ?_⟩
      unfold screenRecs
      rw [hctx, frameScreens_cons_screen f [] nm hk]
      simp [frameScreens]
    · rcases rest with _ | ⟨p, rs⟩
      · have hfold : foldTop st =
            ⟨st.screens, st.navigationStacks, st.links, st.errors, []⟩ := by
          unfold foldTop
          rw [hctx]
          dsimp only
          rw [hk]
        rw [hfold]
        refine ⟨ctxWF_nil, ?_⟩
        unfold screenRecs
        rw [hctx, frameScreens_cons_stack f [] t hk]
      · have hfold : foldTop st =
            ⟨st.screens, st.navigationStacks, st.links, st.errors,
              Frame.mk p.kind p.baseIndent p.lineNumber
                (p.components ++ [DslElement.stack t f.components f.lineNumber]) :: rs⟩ := by
          unfold foldTop
          rw [hctx]
          dsimp only
          rw [hk]
        rw [hfold]
        rcases (ctxWF_cons_iff f (p :: rs)).mp h with h0 | ⟨hs, hwf⟩
        · exact absurd h0 (by simp)
        constructor
        · refine (ctxWF_cons_iff _ rs).mpr ?_
          rcases (ctxWF_cons_iff p rs).mp hwf with h0 | ⟨hps, hwrs⟩
          · exact Or.inl h0
          · refine Or.inr ⟨?_, hwrs⟩
            rw [show isStackFrame (Frame.mk p.kind p.baseIndent p.lineNumber
              (p.components ++ [DslElement.stack t f.components f.lineNumber])) =
              isStackFrame p from rfl]
            exact hps
        · unfold screenRecs
          rw [hctx, frameScreens_cons_stack f (p :: rs) t hk]
          dsimp only
          rw [show frameScreens (Frame.mk p.kind p.baseIndent p.lineNumber
                (p.components ++ [DslElement.stack t f.components f.lineNumber]) :: rs) =
              frameScreens (p :: rs) from
            frameScreens_congr_head p _ rs rfl rfl]

theorem popLoopAux_pres (c : List Char) (i : Nat) :
    ∀ fuel st b, ctxWF st.contextStack →
      ctxWF ((popLoopAux c i fuel st b).1).contextStack ∧
      screenRecs (popLoopAux c i fuel st b).1 = screenRecs st := by
  intro fuel
  induction fuel with
  | zero => intro st b h; exact ⟨h, rfl⟩
  | succ n ih =>
    intro st b h
    unfold popLoopAux
    split
    · exact ⟨h, rfl⟩
    · split
      · obtain ⟨h1, h2⟩ := foldTop_pres st h
        obtain ⟨h3, h4⟩ := ih (foldTop st) _ h1
        exact ⟨h3, by rw [h4, h2]⟩
      · split
        · obtain ⟨h1, h2⟩ := foldTop_pres st h
          obtain ⟨h3, h4⟩ := ih (foldTop st) _ h1
          exact ⟨h3, by rw [h4, h2]⟩
        · exact ⟨h, rfl⟩

theorem screenDedentE_pres (st : PState) (i : Nat) (c : List Char) (st' : PState)
    (h : screenDedentE st i c = Except.ok st') (hw : ctxWF st.contextStack) :
    ctxWF st'.contextStack ∧ screenRecs st' = screenRecs st ∧ st'.errors = st.errors := by
  unfold screenDedentE at h
  rcases hctx : st.contextStack with _ | ⟨f, fs⟩
  · rw [hctx] at h
    simp [except_pure_def] at h
    rw [← h]
    exact ⟨hw, rfl, rfl⟩
  · rw [hctx, if_pos (by simp : 0 < (f :: fs).length), getTop_cons, except_bind_ok] at h
    split at h
    · simp only [except_pure_def, Except.ok.injEq] at h
      obtain ⟨h1, h2⟩ := foldTop_pres st hw
      rw [← h]
      exact ⟨h1, h2, foldTop_errors st⟩
    · simp only [except_pure_def, Except.ok.injEq] at h
      rw [← h]
      exact ⟨hw, rfl, rfl⟩

theorem foldTop_ctx_length (st : PState) (f : Frame) (rest : List Frame)
    (hctx : st.contextStack = f :: rest) :
    (foldTop st).contextStack.length = rest.length := by
  unfold foldTop
  rw [hctx]
  dsimp only
  rcases f.kind with nm | t
  · rfl
  · rcases rest with _ | ⟨p, rs⟩ <;> rfl

theorem closeAllAux_pres :
    ∀ fuel st, ctxWF st.contextStack →
      ctxWF (closeAllAux fuel st).contextStack ∧
      screenRecs (closeAllAux fuel st) = screenRecs st ∧
      (closeAllAux fuel st).errors = st.errors := by
  intro fuel
  induction fuel with
  | zero => intro st h; exact ⟨h, rfl, rfl⟩
  | succ n ih =>
    intro st h
    unfold closeAllAux
    split
    · exact ⟨h, rfl, rfl⟩
    · obtain ⟨h1, h2⟩ := foldTop_pres st h
      obtain ⟨h3, h4, h5⟩ := ih (foldTop st) h1
      exact ⟨h3, by rw [h4, h2], by rw [h5, foldTop_errors]⟩

/-! ## Classifying diagnostics by their leading characters.  Every message
template starts with a fixed literal, so the first two characters identify
the family; only "Duplicate screen name: " starts with `Du`, and only the
two link-validation messages start with `So` / `De`. -/

theorem take2_chain (a b : String) (h : 2 ≤ a.data.length) :
    (a ++ b).data.take 2 = a.data.take 2 ∧ 2 ≤ (a ++ b).data.length := by
  constructor
  · rw [String.data_append]
    exact List.take_append_of_le_length h
  · rw [String.data_append, List.length_append]
    omega

theorem dupScreenMsg_take2 (N : String) :
    (dupScreenMsg N).data.take 2 = ['D', 'u'] := by
  unfold dupScreenMsg
  rw [(take2_chain "Duplicate screen name: " N (by decide)).1]
  decide

theorem dupScreenMsg_inj (a b : String) (h : dupScreenMsg a = dupScreenMsg b) :
    a = b := by
  unfold dupScreenMsg at h
  have := congrArg String.data h
  rw [String.data_append, String.data_append] at this
  have := List.append_cancel_left this
  exact String.ext this

/-- A message whose two leading characters differ from `Du` is never a
duplicate-screen diagnostic. -/
theorem ne_dup_of_take2 (m : String) (h : m.data.take 2 ≠ ['D', 'u'])
    (N : String) : (m == dupScreenMsg N) = false := by
  rw [beq_eq_false_iff_ne]
  intro e
  exact h (by rw [e, dupScreenMsg_take2])

theorem topLevelMsg_take2 (c : List Char) :
    (topLevelMsg c).data.take 2 = ['U', 'n'] := by
  unfold topLevelMsg
  have h1 := take2_chain "Unexpected content at top level: \"" (String.mk c) (by decide)
  have h2 := take2_chain _ "\"" h1.2
  rw [h2.1, h1.1]
  decide

theorem misplacedBraceMsg_take2 (t : StackType) (e f : Nat) :
    (misplacedBraceMsg t e f).data.take 2 = ['M', 'i'] := by
  unfold misplacedBraceMsg
  have h1 := take2_chain "Misplaced closing brace \x27\x7d\x27 for stack \x27"
    (stackDisplay t) (by decide)
  have h2 := take2_chain _ "\x27. Expected at indent " h1.2
  have h3 := take2_chain _ (toString e) h2.2
  have h4 := take2_chain _ ", found at " h3.2
  have h5 := take2_chain _ (toString f) h4.2
  have h6 := take2_chain _ "." h5.2
  rw [h6.1, h5.1, h4.1, h3.1, h2.1, h1.1]
  decide

theorem indentErrMsg_take2 (ctx : String) (e f : Nat) :
    (indentErrMsg ctx e f).data.take 2 = ['I', 'n'] := by
  unfold indentErrMsg
  have h1 := take2_chain "Incorrect indentation. Expected at least "
    (toString e) (by decide)
  have h2 := take2_chain _ " spaces for content within \x27" h1.2
  have h3 := take2_chain _ ctx h2.2
  have h4 := take2_chain _ "\x27. Found " h3.2
  have h5 := take2_chain _ (toString f) h4.2
  have h6 := take2_chain _ " spaces." h5.2
  rw [h6.1, h5.1, h4.1, h3.1, h2.1, h1.1]
  decide

theorem invalidSrcMsg_take2 (src : String) :
    (invalidSrcMsg src).data.take 2 = ['I', 'n'] := by
  unfold invalidSrcMsg
  have h1 := take2_chain "Invalid image src: \"" src (by decide)
  have h2 := take2_chain _ "\"." h1.2
  rw [h2.1, h1.1]
  decide

theorem invalidSyntaxMsg_take2 (ctx : String) (c : List Char) :
    (invalidSyntaxMsg ctx c).data.take 2 = ['I', 'n'] := by
  unfold invalidSyntaxMsg
  have h1 := take2_chain "Invalid syntax or misplaced content within \x27" ctx (by decide)
  have h2 := take2_chain _ "\x27: \"" h1.2
  have h3 := take2_chain _ (String.mk c) h2.2
  have h4 := take2_chain _ "\"" h3.2
  rw [h4.1, h3.1, h2.1, h1.1]
  decide

theorem unclosedMsg_take2 (t : StackType) :
    (unclosedMsg t).data.take 2 = ['U', 'n'] := by
  unfold unclosedMsg
  have h1 := take2_chain "Unclosed " (stackDisplaySpaced t) (by decide)
  have h2 := take2_chain _ " block started on this line (missing \x27\x7d\x27?)." h1.2
  rw [h2.1, h1.1]
  decide

theorem srcNotDefinedMsg_take2 (n : String) :
    (srcNotDefinedMsg n).data.take 2 = ['S', 'o'] := by
  unfold srcNotDefinedMsg
  have h1 := take2_chain "Source screen \"" n (by decide)
  have h2 := take2_chain _ "\" in link not defined." h1.2
  rw [h2.1, h1.1]
  decide

theorem dstNotDefinedMsg_take2 (n : String) :
    (dstNotDefinedMsg n).data.take 2 = ['D', 'e'] := by
  unfold dstNotDefinedMsg
  have h1 := take2_chain "Destination screen \"" n (by decide)
  have h2 := take2_chain _ "\" in link not defined." h1.2
  rw [h2.1, h1.1]
  decide

theorem dupInv_congr (st st' : PState) (he : st'.errors = st.errors)
    (hr : screenRecs st' = screenRecs st) (hP : dupInv st) : dupInv st' := by
  intro N
  rw [he, hr]
  exact hP N

theorem dupInv_pushErr (st : PState) (e : ParseError)
    (h : ∀ N, (e.message == dupScreenMsg N) = false) (hP : dupInv st) :
    dupInv (pushErr st e) := by
  intro N
  show ((st.errors ++ [e]).filter (fun er => er.message == dupScreenMsg N)).map
      ParseError.lineNumber = _
  rw [List.filter_append,
      show List.filter (fun er => er.message == dupScreenMsg N) [e] = [] from by
        simp [List.filter, h N],
      List.append_nil]
  exact hP N

theorem screenRecs_empty_ctx (st : PState) (hctx : st.contextStack = []) :
    screenRecs st = st.screens.map (fun s => (s.name, s.lineNumber)) := by
  unfold screenRecs
  rw [hctx]
  simp [frameScreens]

theorem ctxWF_of_eq_nil (l : List Frame) (h : l = []) : ctxWF l := h ▸ ctxWF_nil

theorem tryTopLevel_dup (st : PState) (n i : Nat) (c : List Char) (st' : PState)
    (hctx : st.contextStack = [])
    (h : tryTopLevel st n i c = some st') (hP : dupInv st) :
    ctxWF st'.contextStack ∧ dupInv st' := by
  unfold tryTopLevel at h
  rcases hnav : navigationStackExec c with _ | root
  case some =>
    simp only [hnav] at h
    split at h
    · injection h with h
      subst h
      exact ⟨ctxWF_of_eq_nil _ hctx,
        dupInv_pushErr st _ (fun N => ne_dup_of_take2 onlyOneNavLongMsg (by decide) N) hP⟩
    · injection h with h
      subst h
      exact ⟨ctxWF_of_eq_nil _ hctx, dupInv_congr st _ rfl rfl hP⟩
  simp only [hnav] at h
  rcases htab : tabStackExec c with _ | w
  case some =>
    simp only [htab] at h
    split at h
    · injection h with h
      subst h
      exact ⟨ctxWF_of_eq_nil _ hctx,
        dupInv_pushErr st _ (fun N => ne_dup_of_take2 onlyOneNavMsg (by decide) N) hP⟩
    · split at h
      · injection h with h
        subst h
        exact ⟨ctxWF_of_eq_nil _ hctx,
          dupInv_pushErr st _ (fun N => ne_dup_of_take2 tabEmptyMsg (by decide) N) hP⟩
      · injection h with h
        subst h
        exact ⟨ctxWF_of_eq_nil _ hctx, dupInv_congr st _ rfl rfl hP⟩
  simp only [htab] at h
  rcases hdra : drawerStackExec c with _ | rd
  case some =>
    simp only [hdra] at h
    split at h
    · injection h with h
      subst h
      exact ⟨ctxWF_of_eq_nil _ hctx,
        dupInv_pushErr st _ (fun N => ne_dup_of_take2 onlyOneNavMsg (by decide) N) hP⟩
    · injection h with h
      subst h
      exact ⟨ctxWF_of_eq_nil _ hctx, dupInv_congr st _ rfl rfl hP⟩
  simp only [hdra] at h
  rcases hlink : screenLinkExec c with _ | ab
  case some =>
    simp only [hlink] at h
    injection h with h
    subst h
    exact ⟨ctxWF_of_eq_nil _ hctx, dupInv_congr st _ rfl rfl hP⟩
  simp only [hlink] at h
  rcases hscr : screenExec c with _ | name
  case some =>
    simp only [hscr] at h
    injection h with h
    subst h
    have hrecs := screenRecs_empty_ctx st hctx
    by_cases hfound : (List.find? (fun s => s.name == name) st.screens).isSome = true
    · simp only [hfound, if_true]
      constructor
      · exact (ctxWF_cons_iff _ _).mpr (Or.inl (by rw [pushErr_ctx]; exact hctx))
      · intro N
        show (((pushErr st ⟨n, dupScreenMsg name⟩).errors).filter
            (fun er => er.message == dupScreenMsg N)).map ParseError.lineNumber = _
        have hrecnew : screenRecs
            ⟨(pushErr st ⟨n, dupScreenMsg name⟩).screens,
              (pushErr st ⟨n, dupScreenMsg name⟩).navigationStacks,
              (pushErr st ⟨n, dupScreenMsg name⟩).links,
              (pushErr st ⟨n, dupScreenMsg name⟩).errors,
              ⟨ContainerKind.screen name, i, n, []⟩ ::
                (pushErr st ⟨n, dupScreenMsg name⟩).contextStack⟩ =
            st.screens.map (fun s => (s.name, s.lineNumber)) ++ [(name, n)] := by
          unfold screenRecs frameScreens
          rw [pushErr_ctx, hctx]
          simp [pushErr]
        rw [show screenRecs
            { screens := (pushErr st ⟨n, dupScreenMsg name⟩).screens,
              navigationStacks := (pushErr st ⟨n, dupScreenMsg name⟩).navigationStacks,
              links := (pushErr st ⟨n, dupScreenMsg name⟩).links,
              errors := (pushErr st ⟨n, dupScreenMsg name⟩).errors,
              contextStack := ⟨ContainerKind.screen name, i, n, []⟩ ::
                (pushErr st ⟨n, dupScreenMsg name⟩).contextStack } =
            st.screens.map (fun s => (s.name, s.lineNumber)) ++ [(name, n)] from hrecnew]
        rw [pushErr_errors, List.filter_append]
        obtain ⟨s, hs⟩ := Option.isSome_iff_exists.mp hfound
        have hmem : s ∈ st.screens := List.mem_of_find?_eq_some hs
        have hsn := List.find?_some hs
        by_cases hname : name = N
        · subst hname
          rw [show List.filter (fun er => er.message == dupScreenMsg name)
                ([⟨n, dupScreenMsg name⟩] : List ParseError) =
              [⟨n, dupScreenMsg name⟩] from by simp [List.filter]]
          rw [List.map_append, hP name, hrecs]
          rw [List.filter_append, List.map_append,
              show List.filter (fun r : String × Nat => r.1 == name) [(name, n)] =
                [(name, n)] from by simp [List.filter]]
          have hne : ((st.screens.map (fun s => (s.name, s.lineNumber))).filter
              (fun r => r.1 == name)) ≠ [] := by
            intro hnil
            have hmem2 : (s.name, s.lineNumber) ∈
                (st.screens.map (fun s => (s.name, s.lineNumber))).filter
                  (fun r => r.1 == name) := by
              rw [List.mem_filter]
              exact ⟨List.mem_map_of_mem _ hmem, hsn⟩
            rw [hnil] at hmem2
            simp at hmem2
          rw [List.drop_append_of_le_length (by
            rcases hfl : (st.screens.map (fun s => (s.name, s.lineNumber))).filter
                (fun r => r.1 == name) with _ | ⟨x, xs⟩
            · exact absurd hfl hne
            · rw [hfl]
              simp)]
          rfl
        · rw [show List.filter (fun er => er.message == dupScreenMsg N)
                ([⟨n, dupScreenMsg name⟩] : List ParseError) = [] from by
              simp only [List.filter]
              rw [show ((⟨n, dupScreenMsg name⟩ : ParseError).message ==
                  dupScreenMsg N) = false from by
                rw [beq_eq_false_iff_ne]
                intro e
                exact hname (dupScreenMsg_inj _ _ e)]]
          rw [List.append_nil, hP N, hrecs]
          rw [List.filter_append,
              show List.filter (fun r : String × Nat => r.1 == N) [(name, n)] =
                [] from by simp [List.filter, beq_eq_false_iff_ne.mpr hname],
              List.append_nil]
    · simp only [hfound, if_false, Bool.false_eq_true]
      have hnone : List.find? (fun s => s.name == name) st.screens = none := by
        rcases hh : List.find? (fun s => s.name == name) st.screens with _ | v
        · exact hh
        · rw [hh] at hfound
          simp at hfound
      have hall := List.find?_eq_none.mp hnone
      constructor
      · exact (ctxWF_cons_iff _ _).mpr (Or.inl hctx)
      · intro N
        have hrecnew : screenRecs
            ⟨st.screens, st.navigationStacks, st.links, st.errors,
              ⟨ContainerKind.screen name, i, n, []⟩ :: st.contextStack⟩ =
            st.screens.map (fun s => (s.name, s.lineNumber)) ++ [(name, n)] := by
          unfold screenRecs frameScreens
          rw [hctx]
          simp
        rw [show screenRecs
            { screens := st.screens, navigationStacks := st.navigationStacks,
              links := st.links, errors := st.errors,
              contextStack := ⟨ContainerKind.screen name, i, n, []⟩ ::
                st.contextStack } =
            st.screens.map (fun s => (s.name, s.lineNumber)) ++ [(name, n)] from hrecnew]
        by_cases hname : name = N
        · subst hname
          have hfl : ((st.screens.map (fun s => (s.name, s.lineNumber))).filter
              (fun r => r.1 == name)) = [] := by
            rw [List.filter_eq_nil_iff]
            intro a ha
            obtain ⟨s', hs', he⟩ := List.mem_map.mp ha
            rw [← he]
            simpa using hall s' hs'
          have hPn := hP name
          rw [hrecs, hfl] at hPn
          show (st.errors.filter (fun er => er.message == dupScreenMsg name)).map
              ParseError.lineNumber = _
          rw [hPn]
          rw [List.filter_append, hfl,
              show List.filter (fun r : String × Nat => r.1 == name) [(name, n)] =
                [(name, n)] from by simp [List.filter]]
          rfl
        · show (st.errors.filter (fun er => er.message == dupScreenMsg N)).map
              ParseError.lineNumber = _
          rw [hP N, hrecs]
          rw [List.filter_append,
              show List.filter (fun r : String × Nat => r.1 == N) [(name, n)] =
                [] from by simp [List.filter, beq_eq_false_iff_ne.mpr hname],
              List.append_nil]
  simp only [hscr] at h
  exact absurd h (by simp)

theorem ctxWF_update_head (f : Frame) (rest : List Frame) (x : List DslElement)
    (h : ctxWF (f :: rest)) : ctxWF ({ f with components := x } :: rest) := by
  refine (ctxWF_cons_iff _ _).mpr ?_
  rcases (ctxWF_cons_iff f rest).mp h with h0 | ⟨ha, hb⟩
  · exact Or.inl h0
  · exact Or.inr ⟨by rw [isStackFrame_update]; exact ha, hb⟩

theorem screenRecs_update_head (st : PState) (f : Frame) (rest : List Frame)
    (x : List DslElement) (hctx : st.contextStack = f :: rest) :
    screenRecs ⟨st.screens, st.navigationStacks, st.links, st.errors,
      { f with components := x } :: rest⟩ = screenRecs st := by
  unfold screenRecs
  dsimp only
  rw [hctx]
  exact congrArg (fun z => List.map (fun s => (s.name, s.lineNumber)) st.screens ++ z)
    (frameScreens_congr_head f { f with components := x } rest rfl rfl)

theorem screenRecs_push_stack (st : PState) (t : StackType) (i n : Nat)
    (tail : List Frame) (hctx : st.contextStack = tail) :
    screenRecs ⟨st.screens, st.navigationStacks, st.links, st.errors,
      ⟨ContainerKind.stack t, i, n, []⟩ :: tail⟩ = screenRecs st := by
  unfold screenRecs
  dsimp only
  rw [frameScreens_cons_stack _ _ t rfl, hctx]

theorem afterDedent_dup (st : PState) (n i : Nat) (c : List Char)
    (hw : ctxWF st.contextStack) (hP : dupInv st) :
    ctxWF (afterDedent st n i c).contextStack ∧ dupInv (afterDedent st n i c) := by
  unfold afterDedent
  rcases hctx : st.contextStack with _ | ⟨f, rest⟩
  · rcases htl : (if i == 0 then tryTopLevel st n i c else none) with _ | st'
    · dsimp only
      split
      · exact ⟨ctxWF_of_eq_nil _ (by rw [pushErr_ctx]; exact hctx),
          dupInv_pushErr st _
            (fun N => ne_dup_of_take2 (topLevelMsg c)
              (by rw [topLevelMsg_take2]; decide) N) hP⟩
      · exact ⟨ctxWF_of_eq_nil _ hctx, hP⟩
    · dsimp only
      have h2 : tryTopLevel st n i c = some st' := by
        by_cases hi : (i == 0) = true
        · rw [hi] at htl
          simpa using htl
        · rw [if_neg (by simpa using hi)] at htl
          exact absurd htl (by simp)
      exact tryTopLevel_dup st n i c st' hctx h2 hP
  · have hw' : ctxWF (f :: rest) := hctx ▸ hw
    dsimp only
    by_cases hbr : (isStackFrame f && stackEndTest c) = true
    · rw [if_pos hbr]
      rcases hk : f.kind with nm | t
      · exfalso
        rw [isStackFrame, hk] at hbr
        simp at hbr
      · dsimp only
        by_cases hi : i ≠ f.baseIndent
        · rw [if_pos hi]
          have hw1 : ctxWF (pushErr st
              ⟨n, misplacedBraceMsg t f.baseIndent i⟩).contextStack := by
            rw [pushErr_ctx, hctx]
            exact hw'
          have hP1 : dupInv (pushErr st ⟨n, misplacedBraceMsg t f.baseIndent i⟩) :=
            dupInv_pushErr st _
              (fun N => ne_dup_of_take2 (misplacedBraceMsg t f.baseIndent i)
                (by rw [misplacedBraceMsg_take2]; decide) N) hP
          obtain ⟨hw2, hr2⟩ := foldTop_pres _ hw1
          have hP2 : dupInv (foldTop (pushErr st
              ⟨n, misplacedBraceMsg t f.baseIndent i⟩)) :=
            dupInv_congr _ _ (foldTop_errors _) hr2 hP1
          split
          · exact ⟨hw2, hP2⟩
          · exact ⟨by rw [pushErr_ctx]; exact hw2,
              dupInv_pushErr _ _
                (fun N => ne_dup_of_take2 afterBraceMsg (by decide) N) hP2⟩
        · rw [if_neg hi]
          obtain ⟨hw2, hr2⟩ := foldTop_pres st hw
          have hP2 : dupInv (foldTop st) :=
            dupInv_congr _ _ (foldTop_errors _) hr2 hP
          split
          · exact ⟨hw2, hP2⟩
          · exact ⟨by rw [pushErr_ctx]; exact hw2,
              dupInv_pushErr _ _
                (fun N => ne_dup_of_take2 afterBraceMsg (by decide) N) hP2⟩
    · rw [if_neg hbr]
      by_cases hb2 : (stackEndTest c && isScreenFrame f) = true
      · rw [if_pos hb2]
        exact ⟨by rw [pushErr_ctx, hctx]; exact hw',
          dupInv_pushErr st _
            (fun N => ne_dup_of_take2 extraneousInScreenMsg (by decide) N) hP⟩
      · rw [if_neg hb2]
        by_cases hb3 : stackEndTest c = true
        · rw [if_pos hb3]
          exact ⟨by rw [pushErr_ctx, hctx]; exact hw',
            dupInv_pushErr st _
              (fun N => ne_dup_of_take2 extraneousMsg (by decide) N) hP⟩
        · rw [if_neg hb3]
          by_cases hlt : i < f.baseIndent + 2
          · rw [if_pos hlt]
            exact ⟨by rw [pushErr_ctx, hctx]; exact hw',
              dupInv_pushErr st _
                (fun N => ne_dup_of_take2 (indentErrMsg (contextTypeDisplay f)
                  (f.baseIndent + 2) i) (by rw [indentErrMsg_take2]; decide) N) hP⟩
          · rw [if_neg hlt]
            by_cases hv : verticalStackStartTest c = true
            · rw [if_pos hv]
              refine ⟨(ctxWF_cons_iff _ _).mpr (Or.inr ⟨rfl, hw'⟩), ?_⟩
              exact dupInv_congr st _ rfl
                (screenRecs_push_stack st StackType.vertical_stack i n
                  (f :: rest) hctx) hP
            · rw [if_neg hv]
              by_cases hh : horizontalStackStartTest c = true
              · rw [if_pos hh]
                refine ⟨(ctxWF_cons_iff _ _).mpr (Or.inr ⟨rfl, hw'⟩), ?_⟩
                exact dupInv_congr st _ rfl
                  (screenRecs_push_stack st StackType.horizontal_stack i n
                    (f :: rest) hctx) hP
              · rw [if_neg hh]
                rcases hlab : labelExec c with _ | tx
                · simp only [hlab]
                  rcases hinp : inputExec c with _ | px
                  · simp only [hinp]
                    rcases hbut : buttonExec c with _ | bx
                    · simp only [hbut]
                      rcases himg : imageExec c with _ | sx
                      · simp only [himg]
                        exact ⟨by rw [pushErr_ctx, hctx]; exact hw',
                          dupInv_pushErr st _
                            (fun N => ne_dup_of_take2 (invalidSyntaxMsg
                              (contextTypeDisplay f) c)
                              (by rw [invalidSyntaxMsg_take2]; decide) N) hP⟩
                      · simp only [himg]
                        split
                        · refine ⟨ctxWF_update_head f rest _ hw', ?_⟩
                          have hP1 : dupInv (pushErr st ⟨n, invalidSrcMsg sx⟩) :=
                            dupInv_pushErr st _
                              (fun N => ne_dup_of_take2 (invalidSrcMsg sx)
                                (by rw [invalidSrcMsg_take2]; decide) N) hP
                          refine dupInv_congr (pushErr st ⟨n, invalidSrcMsg sx⟩) _
                            rfl ?_ hP1
                          exact screenRecs_update_head
                            (pushErr st ⟨n, invalidSrcMsg sx⟩) f rest _
                            (by rw [pushErr_ctx]; exact hctx)
                        · exact ⟨ctxWF_update_head f rest _ hw',
                            dupInv_congr st _ rfl
                              (screenRecs_update_head st f rest _ hctx) hP⟩
                    · simp only [hbut]
                      exact ⟨ctxWF_update_head f rest _ hw',
                        dupInv_congr st _ rfl
                          (screenRecs_update_head st f rest _ hctx) hP⟩
                  · simp only [hinp]
                    exact ⟨ctxWF_update_head f rest _ hw',
                      dupInv_congr st _ rfl
                        (screenRecs_update_head st f rest _ hctx) hP⟩
                · simp only [hlab]
                  exact ⟨ctxWF_update_head f rest _ hw',
                    dupInv_congr st _ rfl
                      (screenRecs_update_head st f rest _ hctx) hP⟩

theorem processLineE_dup (st st' : PState) (n : Nat) (l : List Char)
    (h : processLineE st n l = Except.ok st')
    (hw : ctxWF st.contextStack) (hP : dupInv st) :
    ctxWF st'.contextStack ∧ dupInv st' := by
  unfold processLineE at h
  dsimp only at h
  split at h
  · injection h with h
    subst h
    exact ⟨hw, hP⟩
  · have hp := popLoopAux_pres (trimStart (trimEnd l)) (indentOf (trimEnd l))
      st.contextStack.length st false hw
    have he := popLoopAux_errors (trimStart (trimEnd l)) (indentOf (trimEnd l))
      st.contextStack.length st false
    split at h
    · rename_i st1 heq
      injection h with h
      subst h
      rw [show popLoopAux (trimStart (trimEnd l)) (indentOf (trimEnd l))
            st.contextStack.length st false =
          popLoop (trimStart (trimEnd l)) (indentOf (trimEnd l)) st from rfl,
        heq] at hp he
      exact ⟨hp.1, dupInv_congr st st1 he hp.2 hP⟩
    · rename_i st1 heq
      rw [show popLoopAux (trimStart (trimEnd l)) (indentOf (trimEnd l))
            st.contextStack.length st false =
          popLoop (trimStart (trimEnd l)) (indentOf (trimEnd l)) st from rfl,
        heq] at hp he
      have hP1 : dupInv st1 := dupInv_congr st st1 he hp.2 hP
      obtain ⟨st2, h2⟩ :=
        screenDedentE_ok st1 (indentOf (trimEnd l)) (trimStart (trimEnd l))
      rw [h2, except_bind_ok, except_pure_def] at h
      injection h with h
      obtain ⟨hw2, hr2, he2⟩ := screenDedentE_pres st1 _ _ st2 h2 hp.1
      have hP2 : dupInv st2 := dupInv_congr st1 st2 he2 hr2 hP1
      obtain ⟨hw3, hP3⟩ :=
        afterDedent_dup st2 n (indentOf (trimEnd l)) (trimStart (trimEnd l)) hw2 hP2
      rw [← h]
      exact ⟨hw3, hP3⟩

theorem runLinesE_dup (ls : List (List Char)) :
    ∀ st n st', runLinesE st n ls = Except.ok st' →
      ctxWF st.contextStack → dupInv st →
      ctxWF st'.contextStack ∧ dupInv st' := by
  induction ls with
  | nil =>
    intro st n st' h hw hP
    injection h with h
    subst h
    exact ⟨hw, hP⟩
  | cons l ls ih =>
    intro st n st' h hw hP
    obtain ⟨st1, h1⟩ := processLineE_ok st (n + 1) l
    rw [runLinesE, h1, except_bind_ok] at h
    obtain ⟨hw1, hP1⟩ := processLineE_dup st st1 (n + 1) l h1 hw hP
    exact ih st1 (n + 1) st' h hw1 hP1

theorem finalizeUnclosedE_dup (st st' : PState)
    (h : finalizeUnclosedE st = Except.ok st')
    (hw : ctxWF st.contextStack) (hP : dupInv st) :
    ctxWF st'.contextStack ∧ dupInv st' := by
  unfold finalizeUnclosedE at h
  rcases hctx : st.contextStack with _ | ⟨f, fs⟩
  · rw [hctx] at h
    simp only [List.length_nil, Nat.lt_irrefl, if_false, except_pure_def] at h
    injection h with h
    subst h
    exact ⟨hw, hP⟩
  · rw [hctx, if_pos (by simp : 0 < (f :: fs).length), getTop_cons, except_bind_ok] at h
    split at h
    · rename_i t hk
      simp only [except_pure_def] at h
      injection h with h
      subst h
      exact ⟨by rw [pushErr_ctx]; exact hw,
        dupInv_pushErr st _
          (fun N => ne_dup_of_take2 (unclosedMsg t)
            (by rw [unclosedMsg_take2]; decide) N) hP⟩
    · simp only [except_pure_def] at h
      injection h with h
      subst h
      exact ⟨hw, hP⟩

theorem filter_dup_append_none (errs extra : List ParseError)
    (h : ∀ e ∈ extra, ∀ N : String, (e.message == dupScreenMsg N) = false)
    (N : String) :
    (errs ++ extra).filter (fun e => e.message == dupScreenMsg N) =
      errs.filter (fun e => e.message == dupScreenMsg N) := by
  rw [List.filter_append,
      show List.filter (fun e => e.message == dupScreenMsg N) extra = [] from
        List.filter_eq_nil_iff.mpr (fun e he => by simp [h e he N]),
      List.append_nil]

theorem linkErrorsFor_not_dup (names : List String) (l : ScreenLink) :
    ∀ e ∈ linkErrorsFor names l, ∀ N : String,
      (e.message == dupScreenMsg N) = false := by
  intro e he N
  unfold linkErrorsFor at he
  rw [List.mem_append] at he
  rcases he with he | he
  · split at he
    · simp at he
    · simp only [List.mem_singleton] at he
      subst he
      exact ne_dup_of_take2 _ (by rw [srcNotDefinedMsg_take2]; decide) N
  · split at he
    · simp at he
    · simp only [List.mem_singleton] at he
      subst he
      exact ne_dup_of_take2 _ (by rw [dstNotDefinedMsg_take2]; decide) N

theorem closeAllAux_ctx_nil :
    ∀ fuel st, st.contextStack.length ≤ fuel →
      (closeAllAux fuel st).contextStack = [] := by
  intro fuel
  induction fuel with
  | zero =>
    intro st h
    have : st.contextStack = [] := List.eq_nil_of_length_eq_zero (Nat.le_zero.mp h)
    unfold closeAllAux
    exact this
  | succ n ih =>
    intro st h
    unfold closeAllAux
    split
    · assumption
    · rename_i f rest hctx
      refine ih (foldTop st) ?_
      rw [foldTop_ctx_length st f rest hctx]
      rw [hctx] at h
      simpa using Nat.le_of_succ_le_succ h

/-! ## Link-diagnostic classification (claim C8). -/

theorem take2_of_isPrefixOf (p l : List Char) (h : p.isPrefixOf l = true)
    (hlen : 2 ≤ p.length) : l.take 2 = p.take 2 := by
  obtain ⟨t, ht⟩ := List.isPrefixOf_iff_prefix.mp h
  rw [← ht, List.take_append_of_le_length hlen]

theorem not_linkDiag_of_take2 (m : String) (n : Nat)
    (h1 : m.data.take 2 ≠ ['S', 'o']) (h2 : m.data.take 2 ≠ ['D', 'e']) :
    isLinkDiag ⟨n, m⟩ = false := by
  cases hs : ("Source screen \"".data.isPrefixOf m.data) with
  | true =>
    exfalso
    exact h1 (by rw [take2_of_isPrefixOf _ _ hs (by decide)]; decide)
  | false =>
    cases hd : ("Destination screen \"".data.isPrefixOf m.data) with
    | true =>
      exfalso
      exact h2 (by rw [take2_of_isPrefixOf _ _ hd (by decide)]; decide)
    | false =>
      unfold isLinkDiag
      rw [hs, hd]
      rfl

theorem noLinkDiag_pushErr (st : PState) (e : ParseError)
    (h : isLinkDiag e = false) (hP : noLinkDiag st.errors) :
    noLinkDiag (pushErr st e).errors := by
  intro e' he'
  rw [pushErr_errors] at he'
  rcases List.mem_append.mp he' with h1 | h1
  · exact hP e' h1
  · rw [List.mem_singleton.mp h1]
    exact h

theorem tryTopLevel_noLink (st : PState) (n i : Nat) (c : List Char)
    (st' : PState) (h : tryTopLevel st n i c = some st')
    (hP : noLinkDiag st.errors) : noLinkDiag st'.errors := by
  unfold tryTopLevel at h
  rcases hnav : navigationStackExec c with _ | root
  case some =>
    simp only [hnav] at h
    split at h <;>
      (injection h with h
       subst h
       first
        | exact noLinkDiag_pushErr st _ (not_linkDiag_of_take2 _ _ (by decide) (by decide)) hP
        | exact hP)
  simp only [hnav] at h
  rcases htab : tabStackExec c with _ | w
  case some =>
    simp only [htab] at h
    split at h
    · injection h with h
      subst h
      exact noLinkDiag_pushErr st _ (not_linkDiag_of_take2 _ _ (by decide) (by decide)) hP
    · split at h <;>
        (injection h with h
         subst h
         first
          | exact noLinkDiag_pushErr st _ (not_linkDiag_of_take2 _ _ (by decide) (by decide)) hP
          | exact hP)
  simp only [htab] at h
  rcases hdra : drawerStackExec c with _ | rd
  case some =>
    simp only [hdra] at h
    split at h <;>
      (injection h with h
       subst h
       first
        | exact noLinkDiag_pushErr st _ (not_linkDiag_of_take2 _ _ (by decide) (by decide)) hP
        | exact hP)
  simp only [hdra] at h
  rcases hlink : screenLinkExec c with _ | ab
  case some =>
    simp only [hlink] at h
    injection h with h
    subst h
    exact hP
  simp only [hlink] at h
  rcases hscr : screenExec c with _ | name
  case some =>
    simp only [hscr] at h
    injection h with h
    subst h
    split
    · exact noLinkDiag_pushErr st _
        (not_linkDiag_of_take2 (dupScreenMsg name) n
          (by rw [dupScreenMsg_take2]; decide)
          (by rw [dupScreenMsg_take2]; decide)) hP
    · exact hP
  simp only [hscr] at h
  exact absurd h (by simp)

theorem afterDedent_noLink (st : PState) (n i : Nat) (c : List Char)
    (hP : noLinkDiag st.errors) : noLinkDiag (afterDedent st n i c).errors := by
  unfold afterDedent
  rcases hctx : st.contextStack with _ | ⟨f, rest⟩
  · rcases htl : (if i == 0 then tryTopLevel st n i c else none) with _ | st'
    · dsimp only
      split
      · exact noLinkDiag_pushErr st _
          (not_linkDiag_of_take2 (topLevelMsg c) n
            (by rw [topLevelMsg_take2]; decide)
            (by rw [topLevelMsg_take2]; decide)) hP
      · exact hP
    · dsimp only
      have h2 : tryTopLevel st n i c = some st' := by
        by_cases hi : (i == 0) = true
        · rw [hi] at htl
          simpa using htl
        · rw [if_neg (by simpa using hi)] at htl
          exact absurd htl (by simp)
      exact tryTopLevel_noLink st n i c st' h2 hP
  · dsimp only
    by_cases hbr : (isStackFrame f && stackEndTest c) = true
    · rw [if_pos hbr]
      rcases hk : f.kind with nm | t
      · exfalso
        rw [isStackFrame, hk] at hbr
        simp at hbr
      · dsimp only
        by_cases hi : i ≠ f.baseIndent
        · rw [if_pos hi]
          have hP1 : noLinkDiag (pushErr st
              ⟨n, misplacedBraceMsg t f.baseIndent i⟩).errors :=
            noLinkDiag_pushErr st _
              (not_linkDiag_of_take2 _ _
                (by rw [misplacedBraceMsg_take2]; decide)
                (by rw [misplacedBraceMsg_take2]; decide)) hP
          have hP2 : noLinkDiag (foldTop (pushErr st
              ⟨n, misplacedBraceMsg t f.baseIndent i⟩)).errors := by
            rw [foldTop_errors]
            exact hP1
          split
          · exact hP2
          · exact noLinkDiag_pushErr _ _
              (not_linkDiag_of_take2 afterBraceMsg n (by decide) (by decide)) hP2
        · rw [if_neg hi]
          have hP2 : noLinkDiag (foldTop st).errors := by
            rw [foldTop_errors]
            exact hP
          split
          · exact hP2
          · exact noLinkDiag_pushErr _ _
              (not_linkDiag_of_take2 afterBraceMsg n (by decide) (by decide)) hP2
    · rw [if_neg hbr]
      by_cases hb2 : (stackEndTest c && isScreenFrame f) = true
      · rw [if_pos hb2]
        exact noLinkDiag_pushErr st _
          (not_linkDiag_of_take2 extraneousInScreenMsg n (by decide) (by decide)) hP
      · rw [if_neg hb2]
        by_cases hb3 : stackEndTest c = true
        · rw [if_pos hb3]
          exact noLinkDiag_pushErr st _
            (not_linkDiag_of_take2 extraneousMsg n (by decide) (by decide)) hP
        · rw [if_neg hb3]
          by_cases hlt : i < f.baseIndent + 2
          · rw [if_pos hlt]
            exact noLinkDiag_pushErr st _
              (not_linkDiag_of_take2 (indentErrMsg (contextTypeDisplay f)
                (f.baseIndent + 2) i) n
                (by rw [indentErrMsg_take2]; decide)
                (by rw [indentErrMsg_take2]; decide)) hP
          · rw [if_neg hlt]
            by_cases hv : verticalStackStartTest c = true
            · rw [if_pos hv]
              exact hP
            · rw [if_neg hv]
              by_cases hh : horizontalStackStartTest c = true
              · rw [if_pos hh]
                exact hP
              · rw [if_neg hh]
                rcases hlab : labelExec c with _ | tx
                · simp only [hlab]
                  rcases hinp : inputExec c with _ | px
                  · simp only [hinp]
                    rcases hbut : buttonExec c with _ | bx
                    · simp only [hbut]
                      rcases himg : imageExec c with _ | sx
                      · simp only [himg]
                        exact noLinkDiag_pushErr st _
                          (not_linkDiag_of_take2 (invalidSyntaxMsg
                            (contextTypeDisplay f) c) n
                            (by rw [invalidSyntaxMsg_take2]; decide)
                            (by rw [invalidSyntaxMsg_take2]; decide)) hP
                      · simp only [himg]
                        split
                        · intro e' he'
                          exact noLinkDiag_pushErr st _
                            (not_linkDiag_of_take2 (invalidSrcMsg sx) n
                              (by rw [invalidSrcMsg_take2]; decide)
                              (by rw [invalidSrcMsg_take2]; decide)) hP e' he'
                        · exact hP
                    · simp only [hbut]
                      exact hP
                  · simp only [hinp]
                    exact hP
                · simp only [hlab]
                  exact hP

theorem processLineE_noLink (st st' : PState) (n : Nat) (l : List Char)
    (h : processLineE st n l = Except.ok st')
    (hP : noLinkDiag st.errors) : noLinkDiag st'.errors := by
  unfold processLineE at h
  dsimp only at h
  split at h
  · injection h with h
    subst h
    exact hP
  · have he := popLoopAux_errors (trimStart (trimEnd l)) (indentOf (trimEnd l))
      st.contextStack.length st false
    split at h
    · rename_i st1 heq
      injection h with h
      subst h
      rw [show popLoopAux (trimStart (trimEnd l)) (indentOf (trimEnd l))
            st.contextStack.length st false =
          popLoop (trimStart (trimEnd l)) (indentOf (trimEnd l)) st from rfl,
        heq] at he
      rw [show st1.errors = st.errors from he]
      exact hP
    · rename_i st1 heq
      rw [show popLoopAux (trimStart (trimEnd l)) (indentOf (trimEnd l))
            st.contextStack.length st false =
          popLoop (trimStart (trimEnd l)) (indentOf (trimEnd l)) st from rfl,
        heq] at he
      obtain ⟨st2, h2⟩ :=
        screenDedentE_ok st1 (indentOf (trimEnd l)) (trimStart (trimEnd l))
      rw [h2, except_bind_ok, except_pure_def] at h
      injection h with h
      have he2 : st2.errors = st1.errors := by
        unfold screenDedentE at h2
        rcases hctx1 : st1.contextStack with _ | ⟨f, fs⟩
        · rw [hctx1] at h2
          simp [except_pure_def] at h2
          rw [← h2]
        · rw [hctx1, if_pos (by simp : 0 < (f :: fs).length), getTop_cons,
            except_bind_ok] at h2
          split at h2
          · simp only [except_pure_def, Except.ok.injEq] at h2
            rw [← h2, foldTop_errors]
          · simp only [except_pure_def, Except.ok.injEq] at h2
            rw [← h2]
      have hP2 : noLinkDiag st2.errors := by
        rw [he2, show st1.errors = st.errors from he]
        exact hP
      rw [← h]
      exact afterDedent_noLink st2 n (indentOf (trimEnd l)) (trimStart (trimEnd l)) hP2

theorem runLinesE_noLink (ls : List (List Char)) :
    ∀ st n st', runLinesE st n ls = Except.ok st' →
      noLinkDiag st.errors → noLinkDiag st'.errors := by
  induction ls with
  | nil =>
    intro st n st' h hP
    injection h with h
    subst h
    exact hP
  | cons l ls ih =>
    intro st n st' h hP
    obtain ⟨st1, h1⟩ := processLineE_ok st (n + 1) l
    rw [runLinesE, h1, except_bind_ok] at h
    exact ih st1 (n + 1) st' h (processLineE_noLink st st1 (n + 1) l h1 hP)

theorem linkErrorsFor_nil (names : List String) (l : ScreenLink)
    (hs : names.contains l.sourceScreenName = true)
    (hd : names.contains l.destinationScreenName = true) :
    linkErrorsFor names l = [] := by
  unfold linkErrorsFor
  rw [if_pos hs, if_pos hd]
  rfl

/-- C8: link validation runs against the full document's screen set, so a
link whose endpoints are declared anywhere in the document produces no
link-validation diagnostics; the concrete instances show that `A -> B` before
or after the declarations of `A` and `B` parses with an empty error list. -/
theorem c8_forward_references :
    (∀ code : String,
      (∀ l ∈ (parseDsl code).links,
        (((parseDsl code).screens.map (fun s => s.name)).contains
          l.sourceScreenName) = true ∧
        (((parseDsl code).screens.map (fun s => s.name)).contains
          l.destinationScreenName) = true) →
      (parseDsl code).errors.filter isLinkDiag = []) ∧
    (parseDsl "A -> B\nscreen A\nscreen B\n").errors = [] ∧
    (parseDsl "screen A\nscreen B\nA -> B\n").errors = [] ∧
    (parseDsl "A -> B\nscreen A\nscreen B\n").links =
      [⟨"A", "B", 1⟩] := by
  refine ⟨?_, by decide, by decide, by decide⟩
  intro code hdecl
  obtain ⟨st1, h1⟩ := runLinesE_ok (splitLines code.data) initState 0
  obtain ⟨st2, h2⟩ := finalizeUnclosedE_ok st1
  have hpd := parseDsl_eq code st1 st2 h1 h2
  have hn1 : noLinkDiag st1.errors :=
    runLinesE_noLink (splitLines code.data) initState 0 st1 h1
      (fun e he => absurd he (by simp [initState]))
  have hn2 : noLinkDiag st2.errors := by
    unfold finalizeUnclosedE at h2
    rcases hctx : st1.contextStack with _ | ⟨f, fs⟩
    · rw [hctx] at h2
      simp only [List.length_nil, Nat.lt_irrefl, if_false, except_pure_def] at h2
      injection h2 with h2
      rw [← h2]
      exact hn1
    · rw [hctx, if_pos (by simp : 0 < (f :: fs).length), getTop_cons,
        except_bind_ok] at h2
      split at h2
      · rename_i t hk
        simp only [except_pure_def] at h2
        injection h2 with h2
        rw [← h2]
        exact noLinkDiag_pushErr st1 _
          (not_linkDiag_of_take2 (unclosedMsg t) f.lineNumber
            (by rw [unclosedMsg_take2]; decide)
            (by rw [unclosedMsg_take2]; decide)) hn1
      · simp only [except_pure_def] at h2
        injection h2 with h2
        rw [← h2]
        exact hn1
  have hn3 : noLinkDiag (closeAll st2).errors := by
    obtain ⟨_, _, he3⟩ := closeAllAux_pres st2.contextStack.length st2
      (by
        obtain ⟨hw1, _⟩ := runLinesE_dup (splitLines code.data) initState 0 st1 h1
          ctxWF_nil (fun _ => rfl)
        obtain ⟨hw2, _⟩ := finalizeUnclosedE_dup st1 st2 h2 hw1
          (by
            obtain ⟨_, hP1⟩ := runLinesE_dup (splitLines code.data) initState 0
              st1 h1 ctxWF_nil (fun _ => rfl)
            exact hP1)
        exact hw2)
    rw [show (closeAll st2).errors = st2.errors from he3]
    exact hn2
  rw [hpd]
  show (((closeAll st2).errors ++
      (((closeAll st2).links.map (linkErrorsFor
        ((closeAll st2).screens.map (fun s => s.name)))).flatten)).filter
      isLinkDiag) = []
  rw [List.filter_append]
  have hmain : (closeAll st2).errors.filter isLinkDiag = [] :=
    List.filter_eq_nil_iff.mpr (fun e he => by simp [hn3 e he])
  have hlinks : (((closeAll st2).links.map (linkErrorsFor
      ((closeAll st2).screens.map (fun s => s.name)))).flatten) = [] := by
    rw [List.flatten_eq_nil_iff]
    intro sub hsub
    obtain ⟨lk, hlk, hes⟩ := List.mem_map.mp hsub
    have hd := hdecl lk (by
      rw [hpd] at *
      exact hlk)
    rw [← hes]
    refine linkErrorsFor_nil _ lk ?_ ?_
    · have := hd.1
      rw [hpd] at this
      exact this
    · have := hd.2
      rw [hpd] at this
      exact this
  rw [hmain, hlinks]
  simp

/-! ## Navigation root names are never cross-validated (claim C9). -/

theorem splitLines_no_newline (l : List Char) (h : ∀ c ∈ l, ¬ c = '\n') :
    splitLines l = [l] := by
  induction l with
  | nil => rfl
  | cons c cs ih =>
    unfold splitLines
    rw [if_neg (h c (List.mem_cons_self c cs)),
      ih (fun x hx => h x (List.mem_cons_of_mem c hx))]

theorem not_space_of_wordDash (c : Char) (h : isWordDash c = true) :
    isSpaceChar c = false := by
  by_contra hs
  rw [Bool.not_eq_false] at hs
  unfold isSpaceChar at hs
  simp only [Bool.or_eq_true, decide_eq_true_eq] at hs
  rcases hs with ((((h1 | h1) | h1) | h1) | h1) | h1 <;>
    (subst h1; revert h; decide)

theorem navExec_concat (X : List Char) (hne : X ≠ [])
    (hw : ∀ c ∈ X, isWordDash c = true) :
    navigationStackExec ("navigation_stack root=".data ++ X) =
      some (String.mk X) := by
  have hred : navigationStackExec ("navigation_stack root=".data ++ X) =
      (word1 X).bind (fun p =>
        if blankTest p.2 then some (String.mk p.1) else none) := rfl
  have ht : X.takeWhile isWordDash = X := List.takeWhile_eq_self_iff.mpr hw
  have hd : X.dropWhile isWordDash = [] :=
    List.dropWhile_eq_nil_iff.mpr (fun a ha => hw a ha)
  have hw1 : word1 X = some (X, []) := by
    unfold word1
    rw [ht, hd]
    rcases X with _ | ⟨c, cs⟩
    · exact absurd rfl hne
    · rfl
  rw [hred, hw1]
  rfl

/-- C9: the `root` name of a `navigation_stack` line is recorded without any
cross-validation against declared screens: for every word-dash name `X`, the
single-line document `navigation_stack root=X` parses with an empty error
list (and no screen `X` exists); by contrast, a dangling `ScreenLink`
produces the two `not defined` diagnostics. -/
theorem c9_nav_names_not_validated :
    (∀ X : String, X.data ≠ [] → (∀ c ∈ X.data, isWordDash c = true) →
      parseDsl ("navigation_stack root=" ++ X) =
        ⟨[], [NavigationConfig.navigation_stack X 1], [], []⟩) ∧
    (parseDsl "A -> B\n").errors =
      [⟨1, srcNotDefinedMsg "A"⟩, ⟨1, dstNotDefinedMsg "B"⟩] := by
  refine ⟨?_, by decide⟩
  intro X hne hw
  obtain ⟨ys, z, hyz⟩ := (List.eq_nil_or_concat X.data).resolve_left hne
  rw [List.concat_eq_append] at hyz
  have hz : isSpaceChar z = false :=
    not_space_of_wordDash z (hw z (by rw [hyz]; exact List.mem_append_right ys (List.mem_singleton_self z)))
  have htE : trimEnd ("navigation_stack root=".data ++ X.data) =
      "navigation_stack root=".data ++ X.data := by
    rw [hyz, ← List.append_assoc]
    exact trimEnd_append_nonspace _ z hz
  have hb : blankTest ("navigation_stack root=".data ++ X.data) = false :=
    blankTest_cons_false 'n' ("avigation_stack root=".data ++ X.data) (by decide)
  have hcm : commentTest ("navigation_stack root=".data ++ X.data) = false :=
    commentTest_cons_false 'n' ("avigation_stack root=".data ++ X.data)
      (by decide) (by decide) (by decide)
  have hts : trimStart ("navigation_stack root=".data ++ X.data) =
      "navigation_stack root=".data ++ X.data :=
    trimStart_cons 'n' ("avigation_stack root=".data ++ X.data) (by decide)
  have hio : indentOf ("navigation_stack root=".data ++ X.data) = 0 :=
    indentOf_cons_zero 'n' ("avigation_stack root=".data ++ X.data) (by decide)
  have hnavE := navExec_concat X.data hne hw
  have htt : tryTopLevel initState 1 0 ("navigation_stack root=".data ++ X.data) =
      some ⟨[], [NavigationConfig.navigation_stack (String.mk X.data) 1], [], [], []⟩ := by
    unfold tryTopLevel
    rw [hnavE]
    rfl
  have haft : afterDedent initState 1 0 ("navigation_stack root=".data ++ X.data) =
      ⟨[], [NavigationConfig.navigation_stack (String.mk X.data) 1], [], [], []⟩ := by
    unfold afterDedent
    rw [show initState.contextStack = ([] : List Frame) from rfl]
    dsimp only
    rw [show (if ((0 : Nat) == 0) = true
          then tryTopLevel initState 1 0 ("navigation_stack root=".data ++ X.data)
          else none) =
        tryTopLevel initState 1 0 ("navigation_stack root=".data ++ X.data) from rfl,
      htt]
  have hproc : processLineE initState 1 ("navigation_stack root=".data ++ X.data) =
      Except.ok ⟨[], [NavigationConfig.navigation_stack (String.mk X.data) 1], [], [], []⟩ := by
    unfold processLineE
    dsimp only
    rw [htE, hb, hcm, hts, hio]
    rw [if_neg (by decide : ¬((false || false) = true))]
    rw [show popLoop ("navigation_stack root=".data ++ X.data) 0 initState =
        (initState, false) from rfl]
    dsimp only
    rw [show screenDedentE initState 0 ("navigation_stack root=".data ++ X.data) =
        Except.ok initState from rfl, except_bind_ok, except_pure_def, haft]
  have hrun : runLinesE initState 0
      (splitLines ("navigation_stack root=" ++ X).data) =
      Except.ok ⟨[], [NavigationConfig.navigation_stack (String.mk X.data) 1], [], [], []⟩ := by
    rw [show ("navigation_stack root=" ++ X).data =
        "navigation_stack root=".data ++ X.data from rfl]
    rw [splitLines_no_newline _ (by
      intro c hc
      rcases List.mem_append.mp hc with h1 | h1
      · intro he
        subst he
        revert h1
        decide
      · intro he
        have := hw c h1
        rw [he] at this
        exact absurd this (by decide))]
    rw [runLinesE, hproc, except_bind_ok]
    rfl
  have hfin : finalizeUnclosedE
      ⟨[], [NavigationConfig.navigation_stack (String.mk X.data) 1], [], [], []⟩ =
      Except.ok ⟨[], [NavigationConfig.navigation_stack (String.mk X.data) 1], [], [], []⟩ := rfl
  rw [parseDsl_eq ("navigation_stack root=" ++ X) _ _ hrun hfin]
  rfl

/-- C7: duplicate screens are all kept.  For every input and every name, the
lineNumbers of the "Duplicate screen name" diagnostics for that name are
exactly the declaration lines of the second and later screens of that name
(so declaring a screen twice yields two Screen entries plus exactly one
duplicate diagnostic at the second declaration's line); the concrete instance
shows both screens registered with their own children. -/
theorem c7_duplicate_screens :
    (∀ (code N : String),
      ((parseDsl code).errors.filter (fun e => e.message == dupScreenMsg N)).map
        ParseError.lineNumber =
      ((((parseDsl code).screens.filter (fun s => s.name == N)).map
        Screen.lineNumber).drop 1)) ∧
    ((parseDsl "screen A\n  label \"x\"\nscreen A\n  label \"y\"\n").screens =
      [⟨"A", [DslElement.label "x" 2], 1⟩, ⟨"A", [DslElement.label "y" 4], 3⟩]) ∧
    ((parseDsl "screen A\n  label \"x\"\nscreen A\n  label \"y\"\n").errors =
      [⟨3, dupScreenMsg "A"⟩]) := by
  refine ⟨?_, rfl, by decide⟩
  intro code N
  obtain ⟨st1, h1⟩ := runLinesE_ok (splitLines code.data) initState 0
  obtain ⟨st2, h2⟩ := finalizeUnclosedE_ok st1
  have hpd := parseDsl_eq code st1 st2 h1 h2
  obtain ⟨hw1, hP1⟩ := runLinesE_dup (splitLines code.data) initState 0 st1 h1
    ctxWF_nil (fun _ => rfl)
  obtain ⟨hw2, hP2⟩ := finalizeUnclosedE_dup st1 st2 h2 hw1 hP1
  obtain ⟨hw3, hr3, he3⟩ := closeAllAux_pres st2.contextStack.length st2 hw2
  have hP3 : dupInv (closeAll st2) := dupInv_congr st2 _ he3 hr3 hP2
  have hctx3 : (closeAll st2).contextStack = [] :=
    closeAllAux_ctx_nil st2.contextStack.length st2 le_rfl
  rw [hpd]
  show (((closeAll st2).errors ++
      (((closeAll st2).links.map (linkErrorsFor
        ((closeAll st2).screens.map (fun s => s.name)))).flatten)).filter
      (fun e => e.message == dupScreenMsg N)).map ParseError.lineNumber = _
  rw [filter_dup_append_none _ _ (fun e he M => by
    obtain ⟨sub, hsub, hesub⟩ := List.mem_flatten.mp he
    obtain ⟨lk, _, hlk⟩ := List.mem_map.mp hsub
    exact linkErrorsFor_not_dup _ lk e (hlk ▸ hesub) M) N]
  have hPN := hP3 N
  rw [screenRecs_empty_ctx _ hctx3] at hPN
  rw [hPN, List.filter_map, List.map_map]
  rfl

theorem c8_forward_references_witness :
    (parseDsl "A -> B\nscreen A\nscreen B\n").errors.filter isLinkDiag = [] :=
  c8_forward_references.1 "A -> B\nscreen A\nscreen B\n" (by decide)

theorem c9_nav_names_not_validated_witness :
    parseDsl ("navigation_stack root=" ++ "Home") =
      ⟨[], [NavigationConfig.navigation_stack "Home" 1], [], []⟩ :=
  c9_nav_names_not_validated.1 "Home" (by decide) (by decide)

end Wireframe
